import Mathlib

/-!
# `CreateChangeEvent` of go-pagerduty (`change_events.go`)

A shallow embedding of `change_events.go` and of the parts of Go's standard
library it calls, and the properties of `CreateChangeEvent` proved on it.

* Go `string` is modelled by `String`, that is, by text that is valid UTF-8;
  a request or response body is the text its reader yields up to end of file.
* The method has a pointer receiver: the `Client` record is the state that is
  threaded through.  `doWithEndpoint` is defined in another file of the
  package and is taken as an argument: any function from its arguments and
  the client to the pair `(resp, err)` it returns and the client it leaves.
  The helper `recording` keeps a log of the calls, by which the statements
  count them.
* `encoding/json` is the Go standard library.  Its encoder is modelled on
  reflected Go values (`GoValue`, `encodeValue`) and writes text as
  `json.Marshal` does (`Json.render`: no white space, HTML characters and
  control characters escaped, `\b` and `\f` written as such as Go does since
  1.22).  Its decoder is modelled as the reader of the first JSON value of
  the body (`readValue`) followed by the storing of that value into a
  `ChangeEventResponse` (`decodeValue`): keys are matched to the `json` tags
  exactly or else up to letter case, `null` leaves a string as it is and
  makes a slice nil, a value of another type is an `UnmarshalTypeError` that
  is returned after the rest of the object was stored.  The struct tags that
  drive both are those written in `change_events.go`.
* Of an error only `errors.New(text)` carries its text; the texts of the
  errors of `encoding/json` are not modelled.
-/

namespace Pagerduty

/-! ## Go values shared by the model -/

/-- Go `error` values that can reach a caller of `CreateChangeEvent`. -/
inductive GoError where
  /-- The value of `errors.New(text)`; its `Error()` is `text`. -/
  | errorsNew (text : String)
  /-- A `*json.UnsupportedTypeError` of the encoder, with the kind refused. -/
  | unsupportedType (kind : String)
  /-- The sentinel `io.EOF`. -/
  | eof
  /-- The sentinel `io.ErrUnexpectedEOF`. -/
  | unexpectedEOF
  /-- A `*json.SyntaxError` (its text and offset are not modelled). -/
  | syntaxError
  /-- A `*json.UnmarshalTypeError`: JSON `value` cannot be stored in `goType`. -/
  | unmarshalType (value : String) (goType : String)
  /-- Any other error, such as one made by the transport. -/
  | other (description : String)
  deriving DecidableEq, Repr

/-- JSON values, members of an object in the order they are written. -/
inductive Json where
  | null
  | bool (b : Bool)
  | num (literal : String)
  | str (s : String)
  | arr (elems : List Json)
  | obj (members : List (String × Json))
  deriving Repr

/-! ## The data model of `change_events.go` -/

/-- The constant `ChangeEventPath`. -/
def ChangeEventPath : String := "/v2/change/enqueue"

/-- The struct `Link`. -/
structure Link where
  Href : String
  Text : String
  deriving DecidableEq, Repr

/-- The struct `Payload`; `CustomDetails` is a `map[string]string`, `none` being
the nil map and `some es` a map with the entries `es` (keys distinct). -/
structure Payload where
  Source : String
  Summary : String
  Timestamp : String
  CustomDetails : Option (List (String × String))
  deriving DecidableEq, Repr

/-- The struct `ChangeEvent`; `Links` is a slice, `none` being the nil slice. -/
structure ChangeEvent where
  RoutingKey : String
  Payload : Payload
  Links : Option (List Link)
  deriving DecidableEq, Repr

/-- The struct `ChangeEventResponse`; `Errors` is a slice, `none` being nil. -/
structure ChangeEventResponse where
  Status : String
  Message : String
  Errors : Option (List String)
  deriving DecidableEq, Repr

/-! ## `json.Marshal` -/

/-- What `encoding/json` reads from a struct field's `json` tag. -/
structure FieldTag where
  name : String
  omitEmpty : Bool
  deriving DecidableEq, Repr

/-- Go values as the encoder sees them through `reflect`. -/
inductive GoValue where
  | string (s : String)
  | struct (fields : List (FieldTag × GoValue))
  | sliceNil
  | slice (elems : List GoValue)
  | mapNil
  | map (entries : List (String × GoValue))
  | chan
  | func
  | complex
  deriving Repr

/-- The encoder's `isEmptyValue`, which decides what `omitempty` drops. -/
def GoValue.isEmptyValue : GoValue → Bool
  | .string s => s.length == 0
  | .sliceNil => true
  | .slice elems => elems.length == 0
  | .mapNil => true
  | .map entries => entries.length == 0
  | _ => false

/-- Lexicographic order on the characters of two strings. -/
def charsLess : List Char → List Char → Bool
  | _, [] => false
  | [], _ :: _ => true
  | a :: as, b :: bs =>
    if a.toNat < b.toNat then true
    else if b.toNat < a.toNat then false
    else charsLess as bs

/-- The order in which the encoder sorts map keys: that of the bytes of the
strings, which for UTF-8 text is that of their characters. -/
def stringLess (a b : String) : Bool := charsLess a.data b.data

/-- Insert one encoded map entry into a list that is sorted by key. -/
def insertByKey {α : Type} (kv : String × α) : List (String × α) → List (String × α)
  | [] => [kv]
  | x :: xs => if stringLess kv.1 x.1 then kv :: x :: xs else x :: insertByKey kv xs

/-- Map entries in the order of their keys, as the map encoder writes them. -/
def sortByKey {α : Type} : List (String × α) → List (String × α)
  | [] => []
  | x :: xs => insertByKey x (sortByKey xs)

/-- The members of an object, or the first error met while writing them. -/
def collectMembers : List (String × Except GoError Json) → Except GoError (List (String × Json))
  | [] => .ok []
  | (_, .error err) :: _ => .error err
  | (k, .ok j) :: rest =>
    match collectMembers rest with
    | .error err => .error err
    | .ok js => .ok ((k, j) :: js)

mutual
/-- The encoder chosen by the kind of the value: strings, structs, slices and
maps with string keys are written, channels, functions and complex numbers
are refused with an `UnsupportedTypeError`. -/
def encodeValue : GoValue → Except GoError Json
  | .string s => .ok (.str s)
  | .struct fields =>
    match encodeFields fields with
    | .error err => .error err
    | .ok ms => .ok (.obj ms)
  | .sliceNil => .ok .null
  | .slice elems =>
    match encodeElems elems with
    | .error err => .error err
    | .ok js => .ok (.arr js)
  | .mapNil => .ok .null
  | .map entries =>
    match collectMembers (sortByKey (encodeEntries entries)) with
    | .error err => .error err
    | .ok ms => .ok (.obj ms)
  | .chan => .error (.unsupportedType "chan")
  | .func => .error (.unsupportedType "func")
  | .complex => .error (.unsupportedType "complex128")
/-- The struct encoder: fields in declaration order, an `omitempty` field
dropped when its value is empty. -/
def encodeFields : List (FieldTag × GoValue) → Except GoError (List (String × Json))
  | [] => .ok []
  | (tag, v) :: rest =>
    if tag.omitEmpty && v.isEmptyValue then encodeFields rest
    else
      match encodeValue v with
      | .error err => .error err
      | .ok j =>
        match encodeFields rest with
        | .error err => .error err
        | .ok ms => .ok ((tag.name, j) :: ms)
/-- The array encoder: elements in order. -/
def encodeElems : List GoValue → Except GoError (List Json)
  | [] => .ok []
  | v :: rest =>
    match encodeValue v with
    | .error err => .error err
    | .ok j =>
      match encodeElems rest with
      | .error err => .error err
      | .ok js => .ok (j :: js)
/-- The values of a map's entries, each encoded on its own. -/
def encodeEntries : List (String × GoValue) → List (String × Except GoError Json)
  | [] => []
  | (k, v) :: rest => (k, encodeValue v) :: encodeEntries rest
end

/-- Lower-case hexadecimal digit. -/
def hexDigit (n : Nat) : Char :=
  ['0', '1', '2', '3', '4', '5', '6', '7', '8', '9', 'a', 'b', 'c', 'd', 'e', 'f'].getD n '0'

/-- One character of a string as `json.Marshal` writes it (HTML escaping on). -/
def escapeChar (c : Char) : List Char :=
  if c = '"' then ['\\', '"']
  else if c = '\\' then ['\\', '\\']
  else if c = '\x08' then ['\\', 'b']
  else if c = '\x0c' then ['\\', 'f']
  else if c = '\n' then ['\\', 'n']
  else if c = '\r' then ['\\', 'r']
  else if c = '\t' then ['\\', 't']
  else if c.toNat < 32 ∨ c = '<' ∨ c = '>' ∨ c = '&' then
    ['\\', 'u', '0', '0', hexDigit (c.toNat / 16), hexDigit (c.toNat % 16)]
  else if c = '\u2028' then ['\\', 'u', '2', '0', '2', '8']
  else if c = '\u2029' then ['\\', 'u', '2', '0', '2', '9']
  else [c]

/-- A string literal as written by the encoder. -/
def quoteString (s : String) : List Char :=
  '"' :: ((s.data.map escapeChar).flatten ++ ['"'])

mutual
/-- The text of a JSON value as the encoder writes it: no white space. -/
def Json.renderChars : Json → List Char
  | .null => ['n', 'u', 'l', 'l']
  | .bool true => ['t', 'r', 'u', 'e']
  | .bool false => ['f', 'a', 'l', 's', 'e']
  | .num literal => literal.data
  | .str s => quoteString s
  | .arr elems => '[' :: (renderElems elems ++ [']'])
  | .obj members => '\x7b' :: (renderMembers members ++ ['\x7d'])
/-- Elements separated by commas. -/
def renderElems : List Json → List Char
  | [] => []
  | [j] => j.renderChars
  | j :: k :: rest => j.renderChars ++ ',' :: renderElems (k :: rest)
/-- Members `"key":value` separated by commas. -/
def renderMembers : List (String × Json) → List Char
  | [] => []
  | [(k, j)] => quoteString k ++ ':' :: j.renderChars
  | (k, j) :: m :: rest => quoteString k ++ ':' :: j.renderChars ++ ',' :: renderMembers (m :: rest)
end

/-- The text of a JSON value. -/
def Json.render (j : Json) : String := ⟨j.renderChars⟩

/-- The struct `Link` through `reflect`: tags `json:"href"` and `json:"text"`. -/
def Link.reflect (l : Link) : GoValue :=
  .struct [(⟨"href", false⟩, .string l.Href), (⟨"text", false⟩, .string l.Text)]

/-- A `map[string]string` through `reflect`. -/
def reflectStringMap : Option (List (String × String)) → GoValue
  | none => .mapNil
  | some entries => .map (entries.map fun kv => (kv.1, GoValue.string kv.2))

/-- A `[]Link` through `reflect`. -/
def reflectLinks : Option (List Link) → GoValue
  | none => .sliceNil
  | some links => .slice (links.map Link.reflect)

/-- The struct `Payload` through `reflect`, with the tags of its four fields. -/
def Payload.reflect (p : Payload) : GoValue :=
  .struct [(⟨"source", false⟩, .string p.Source),
           (⟨"summary", false⟩, .string p.Summary),
           (⟨"timestamp", false⟩, .string p.Timestamp),
           (⟨"custom_details", false⟩, reflectStringMap p.CustomDetails)]

/-- The struct `ChangeEvent` through `reflect`, with the tags of its three fields. -/
def ChangeEvent.reflect (e : ChangeEvent) : GoValue :=
  .struct [(⟨"routing_key", false⟩, .string e.RoutingKey),
           (⟨"payload", false⟩, e.Payload.reflect),
           (⟨"links", false⟩, reflectLinks e.Links)]

/-- The call `json.Marshal(v)` on a reflected value. -/
def marshalValue (v : GoValue) : Except GoError String :=
  match encodeValue v with
  | .error err => .error err
  | .ok j => .ok j.render

/-- The call `json.Marshal(e)` of `CreateChangeEvent`. -/
def jsonMarshal (e : ChangeEvent) : Except GoError String :=
  marshalValue e.reflect

/-! ## `json.NewDecoder(r).Decode`: reading the first JSON value -/

/-- Outcome of a reading step that is given fuel. -/
inductive Read (α : Type) where
  | outOfFuel
  | fail (err : GoError)
  | done (a : α) (rest : List Char)
  deriving Repr

/-- The scanner's `isSpace`. -/
def isSpace (c : Char) : Bool :=
  c = ' ' || c = '\t' || c = '\r' || c = '\n'

/-- Drop the white space at the head of the text. -/
def skipSpace : List Char → List Char
  | [] => []
  | c :: rest => if isSpace c then skipSpace rest else c :: rest

/-- The scanner's `maxNestingDepth`. -/
def maxNestingDepth : Nat := 10000

/-- Value of a hexadecimal digit. -/
def hexVal (c : Char) : Option Nat :=
  if '0' ≤ c ∧ c ≤ '9' then some (c.toNat - 48)
  else if 'a' ≤ c ∧ c ≤ 'f' then some (c.toNat - 87)
  else if 'A' ≤ c ∧ c ≤ 'F' then some (c.toNat - 55)
  else none

/-- The `n` hexadecimal digits of a `\u` escape. -/
def readHex : Nat → Nat → List Char → Except GoError (Nat × List Char)
  | 0, acc, rest => .ok (acc, rest)
  | _ + 1, _, [] => .error .unexpectedEOF
  | n + 1, acc, c :: rest =>
    match hexVal c with
    | none => .error .syntaxError
    | some d => readHex n (acc * 16 + d) rest

/-- The character a one-letter escape stands for. -/
def simpleEscape (c : Char) : Option Char :=
  if c = '"' then some '"'
  else if c = '\\' then some '\\'
  else if c = '/' then some '/'
  else if c = 'b' then some '\x08'
  else if c = 'f' then some '\x0c'
  else if c = 'n' then some '\n'
  else if c = 'r' then some '\r'
  else if c = 't' then some '\t'
  else none

/-- The low half of a surrogate pair written as `\uXXXX` right after a high
half `hi`: the rune of the pair and the text after it. -/
def readLowSurrogate (hi : Nat) : List Char → Option (Char × List Char)
  | '\\' :: 'u' :: rest =>
    match readHex 4 0 rest with
    | .ok (lo, rest1) =>
      if 0xD800 ≤ hi ∧ hi < 0xDC00 ∧ 0xDC00 ≤ lo ∧ lo < 0xE000 then
        some (Char.ofNat ((hi - 0xD800) * 1024 + (lo - 0xDC00) + 0x10000), rest1)
      else none
    | .error _ => none
  | _ => none

/-- A string literal after its opening quote: the text it denotes (escapes
resolved, a surrogate half without its partner read as U+FFFD) and the text
after the closing quote.  `acc` holds the characters read so far, reversed. -/
def readString : Nat → List Char → List Char → Read String
  | 0, _, _ => .outOfFuel
  | _ + 1, _, [] => .fail .unexpectedEOF
  | fuel + 1, acc, c :: rest =>
    if c = '"' then .done ⟨acc.reverse⟩ rest
    else if c = '\\' then
      match rest with
      | [] => .fail .unexpectedEOF
      | e :: rest1 =>
        if e = 'u' then
          match readHex 4 0 rest1 with
          | .error err => .fail err
          | .ok (r, rest2) =>
            if 0xD800 ≤ r ∧ r < 0xE000 then
              match readLowSurrogate r rest2 with
              | some (ch, rest3) => readString fuel (ch :: acc) rest3
              | none => readString fuel ('\uFFFD' :: acc) rest2
            else readString fuel (Char.ofNat r :: acc) rest2
        else
          match simpleEscape e with
          | none => .fail .syntaxError
          | some ch => readString fuel (ch :: acc) rest1
    else if c.toNat < 32 then .fail .syntaxError
    else readString fuel (c :: acc) rest

/-- The rest of a literal name (`true`, `false`, `null`) after its first letter. -/
def readLiteral : List Char → List Char → Except GoError (List Char)
  | [], rest => .ok rest
  | _ :: _, [] => .error .unexpectedEOF
  | c :: cs, d :: rest => if c = d then readLiteral cs rest else .error .syntaxError

/-- Decimal digit. -/
def isDigit (c : Char) : Bool := '0' ≤ c && c ≤ '9'

/-- One or more digits. -/
def readDigits : List Char → Except GoError (List Char × List Char)
  | [] => .error .unexpectedEOF
  | c :: rest =>
    if isDigit c then .ok ((c :: rest).span isDigit)
    else .error .syntaxError

/-- The exponent of a number, if one follows. -/
def readExponent (lit : List Char) : List Char → Except GoError (List Char × List Char)
  | e :: rest =>
    if e = 'e' ∨ e = 'E' then
      match rest with
      | s :: rest1 =>
        if s = '+' ∨ s = '-' then
          match readDigits rest1 with
          | .error err => .error err
          | .ok (ds, rest2) => .ok (lit ++ e :: s :: ds, rest2)
        else
          match readDigits rest with
          | .error err => .error err
          | .ok (ds, rest2) => .ok (lit ++ e :: ds, rest2)
      | [] => .error .unexpectedEOF
    else .ok (lit, e :: rest)
  | [] => .ok (lit, [])

/-- The fraction and exponent of a number, if they follow. -/
def readFraction (lit : List Char) : List Char → Except GoError (List Char × List Char)
  | c :: rest =>
    if c = '.' then
      match readDigits rest with
      | .error err => .error err
      | .ok (ds, rest1) => readExponent (lit ++ c :: ds) rest1
    else readExponent lit (c :: rest)
  | [] => .ok (lit, [])

/-- The integer part after an optional sign: `0`, or a digit `1`-`9` and more digits. -/
def readInteger (lit : List Char) : List Char → Except GoError (List Char × List Char)
  | [] => .error .unexpectedEOF
  | c :: rest =>
    if c = '0' then readFraction (lit ++ [c]) rest
    else if isDigit c then
      readFraction (lit ++ ((c :: rest).span isDigit).1) ((c :: rest).span isDigit).2
    else .error .syntaxError

/-- A number literal, the text starting at its sign or first digit. -/
def readNumber : List Char → Except GoError (List Char × List Char)
  | c :: rest => if c = '-' then readInteger [c] rest else readInteger [] (c :: rest)
  | [] => .error .unexpectedEOF

mutual
/-- One JSON value at the head of the text, `depth` containers being open. -/
def parseValue : Nat → Nat → List Char → Read Json
  | 0, _, _ => .outOfFuel
  | fuel + 1, depth, input =>
    match skipSpace input with
    | [] => .fail .unexpectedEOF
    | c :: rest =>
      if c = '\x7b' then
        if depth ≥ maxNestingDepth then .fail .syntaxError
        else
          match skipSpace rest with
          | [] => .fail .unexpectedEOF
          | d :: rest1 =>
            if d = '\x7d' then .done (.obj []) rest1
            else parseMembers fuel (depth + 1) [] (d :: rest1)
      else if c = '[' then
        if depth ≥ maxNestingDepth then .fail .syntaxError
        else
          match skipSpace rest with
          | [] => .fail .unexpectedEOF
          | d :: rest1 =>
            if d = ']' then .done (.arr []) rest1
            else parseElems fuel (depth + 1) [] (d :: rest1)
      else if c = '"' then
        match readString (rest.length + 1) [] rest with
        | .outOfFuel => .outOfFuel
        | .fail err => .fail err
        | .done s rest1 => .done (.str s) rest1
      else if c = '-' ∨ isDigit c then
        match readNumber (c :: rest) with
        | .error err => .fail err
        | .ok (lit, rest1) => .done (.num ⟨lit⟩) rest1
      else if c = 't' then
        match readLiteral ['r', 'u', 'e'] rest with
        | .error err => .fail err
        | .ok rest1 => .done (.bool true) rest1
      else if c = 'f' then
        match readLiteral ['a', 'l', 's', 'e'] rest with
        | .error err => .fail err
        | .ok rest1 => .done (.bool false) rest1
      else if c = 'n' then
        match readLiteral ['u', 'l', 'l'] rest with
        | .error err => .fail err
        | .ok rest1 => .done .null rest1
      else .fail .syntaxError
/-- The elements of an array after `[` or `,`, up to and with the closing `]`;
`acc` holds the elements read so far, reversed. -/
def parseElems : Nat → Nat → List Json → List Char → Read Json
  | 0, _, _, _ => .outOfFuel
  | fuel + 1, depth, acc, input =>
    match parseValue fuel depth input with
    | .outOfFuel => .outOfFuel
    | .fail err => .fail err
    | .done v rest =>
      match skipSpace rest with
      | [] => .fail .unexpectedEOF
      | c :: rest1 =>
        if c = ',' then parseElems fuel depth (v :: acc) rest1
        else if c = ']' then .done (.arr (v :: acc).reverse) rest1
        else .fail .syntaxError
/-- The members of an object after `\x7b` or `,`, up to and with the closing
`\x7d`; `acc` holds the members read so far, reversed. -/
def parseMembers : Nat → Nat → List (String × Json) → List Char → Read Json
  | 0, _, _, _ => .outOfFuel
  | fuel + 1, depth, acc, input =>
    match skipSpace input with
    | [] => .fail .unexpectedEOF
    | q :: rest =>
      if q = '"' then
        match readString (rest.length + 1) [] rest with
        | .outOfFuel => .outOfFuel
        | .fail err => .fail err
        | .done key rest1 =>
          match skipSpace rest1 with
          | [] => .fail .unexpectedEOF
          | colon :: rest2 =>
            if colon = ':' then
              match parseValue fuel depth rest2 with
              | .outOfFuel => .outOfFuel
              | .fail err => .fail err
              | .done v rest3 =>
                match skipSpace rest3 with
                | [] => .fail .unexpectedEOF
                | c :: rest4 =>
                  if c = ',' then parseMembers fuel depth ((key, v) :: acc) rest4
                  else if c = '\x7d' then .done (.obj ((key, v) :: acc).reverse) rest4
                  else .fail .syntaxError
            else .fail .syntaxError
      else .fail .syntaxError
end

/-- The decoder's `readValue` and the parse of what it read: the first JSON
value of the body.  A body of white space only ends in `io.EOF`, a body that
stops inside the value in `io.ErrUnexpectedEOF`, a byte the grammar refuses
in a `SyntaxError`; what follows the value is left unread. -/
def readValue (body : String) : Except GoError Json :=
  match skipSpace body.data with
  | [] => .error .eof
  | c :: rest =>
    match parseValue (2 * (c :: rest).length + 2) 0 (c :: rest) with
    | .outOfFuel => .error .syntaxError -- not taken, the fuel is enough (`readValue_fuel`)
    | .fail err => .error err
    | .done v _ => .ok v

/-! ## `Decode` into a `ChangeEventResponse` -/

/-- The decoder's case fold of a name, as far as it can meet an ASCII name:
ASCII letters go to upper case, and the two letters outside ASCII whose fold
orbit holds an ASCII letter, U+017F (long s) and U+212A (Kelvin sign), go to
`S` and `K`.  Every other character folds within an orbit that holds no
ASCII character. -/
def foldRune (c : Char) : Char :=
  if 'a' ≤ c ∧ c ≤ 'z' then Char.ofNat (c.toNat - 32)
  else if c = '\u017F' then 'S'
  else if c = '\u212A' then 'K'
  else c

/-- The decoder's `foldName`. -/
def foldName (s : String) : List Char := s.data.map foldRune

/-- The fields of `ChangeEventResponse`. -/
inductive ResponseField where
  | Status
  | Message
  | Errors
  deriving DecidableEq, Repr

/-- The names the `json` tags of `ChangeEventResponse` give its fields. -/
def responseFields : List (String × ResponseField) :=
  [("status", .Status), ("message", .Message), ("errors", .Errors)]

/-- The field an object key is stored in: the field of exactly that name,
or else the field whose name is the key up to letter case; none otherwise. -/
def findField (key : String) : Option ResponseField :=
  match responseFields.find? fun f => f.1 = key with
  | some f => some f.2
  | none =>
    match responseFields.find? fun f => foldName f.1 = foldName key with
    | some f => some f.2
    | none => none

/-- A `[]string` while it is decoded into: `none` is the nil slice, and
`some (backing, len)` a slice of length `len` over a backing array that still
holds what was written beyond `len` before the slice was cut. -/
abbrev StringSlice := Option (List String × Nat)

/-- The elements of the slice. -/
def StringSlice.toList : StringSlice → Option (List String)
  | none => none
  | some (backing, len) => some (backing.take len)

/-- The name `UnmarshalTypeError.Value` gives to a JSON value. -/
def Json.kindName : Json → String
  | .null => "null"
  | .bool _ => "bool"
  | .num _ => "number"
  | .str _ => "string"
  | .arr _ => "array"
  | .obj _ => "object"

/-- Store a JSON value in a Go `string`: a string is stored, `null` leaves
the target as it is, any other value is a type error and leaves it too. -/
def storeString (target : String) : Json → String × Option GoError
  | .str s => (s, none)
  | .null => (target, none)
  | v => (target, some (.unmarshalType v.kindName "string"))

/-- The first of two errors: the decoder keeps the first error it saved. -/
def firstError : Option GoError → Option GoError → Option GoError
  | some err, _ => some err
  | none, later => later

/-- The loop of the decoder's `array` on a `[]string`: element `i` of the JSON
array is stored in element `i` of the slice, the slice growing by a zero
element where it is too short. -/
def storeElems : List Json → Nat → List String → Nat → Option GoError →
    List String × Nat × Nat × Option GoError
  | [], i, backing, len, saved => (backing, len, i, saved)
  | v :: rest, i, backing, len, saved =>
    let backing1 := if i ≥ backing.length then backing ++ [""] else backing
    let len1 := if i ≥ len then i + 1 else len
    let stored := storeString (backing1.getD i "") v
    storeElems rest (i + 1) (backing1.set i stored.1) len1 (firstError saved stored.2)

/-- The decoder's `array` on a `[]string`: after the loop the slice is cut to
the number of elements read, and an empty array gives a new empty slice. -/
def storeArray (elems : List Json) (target : StringSlice) (saved : Option GoError) :
    StringSlice × Option GoError :=
  let start : List String × Nat := target.getD ([], 0)
  match storeElems elems 0 start.1 start.2 saved with
  | (backing, len, i, saved1) =>
    if i = 0 then (some ([], 0), saved1)
    else (some (backing, if i < len then i else len), saved1)

/-- Store a JSON value in a `[]string`: an array is stored element by element,
`null` makes the slice nil, any other value is a type error. -/
def storeStringSlice (target : StringSlice) (saved : Option GoError) :
    Json → StringSlice × Option GoError
  | .arr elems => storeArray elems target saved
  | .null => (none, saved)
  | v => (target, firstError saved (some (.unmarshalType v.kindName "[]string")))

/-- The struct being decoded into, and the error saved so far. -/
structure DecodeState where
  Status : String
  Message : String
  Errors : StringSlice
  savedError : Option GoError
  deriving DecidableEq, Repr

/-- One member of the object: its value goes to the field its key names, a
key that names no field is skipped. -/
def storeMember (st : DecodeState) (member : String × Json) : DecodeState :=
  match findField member.1 with
  | none => st
  | some .Status =>
    let stored := storeString st.Status member.2
    { st with Status := stored.1, savedError := firstError st.savedError stored.2 }
  | some .Message =>
    let stored := storeString st.Message member.2
    { st with Message := stored.1, savedError := firstError st.savedError stored.2 }
  | some .Errors =>
    let stored := storeStringSlice st.Errors st.savedError member.2
    { st with Errors := stored.1, savedError := stored.2 }

/-- The struct of a decode state. -/
def DecodeState.response (st : DecodeState) : ChangeEventResponse :=
  ⟨st.Status, st.Message, st.Errors.toList⟩

/-- The decode state that starts from a struct. -/
def DecodeState.start (target : ChangeEventResponse) : DecodeState :=
  ⟨target.Status, target.Message, target.Errors.map fun xs => (xs, xs.length), none⟩

/-- Store a JSON value in a `ChangeEventResponse`: the members of an object
in the order they are written, nothing for `null`, a type error for any
other value.  The struct is returned as far as it was filled, with the first
error saved. -/
def decodeValue (target : ChangeEventResponse) : Json → ChangeEventResponse × Option GoError
  | .obj members =>
    let st := members.foldl storeMember (DecodeState.start target)
    (st.response, st.savedError)
  | .null => (target, none)
  | v => (target, some (.unmarshalType v.kindName "pagerduty.ChangeEventResponse"))

/-- The call `json.NewDecoder(body).Decode(&target)`: the struct after the
call and the error returned. -/
def jsonDecode (body : String) (target : ChangeEventResponse) :
    ChangeEventResponse × Option GoError :=
  match readValue body with
  | .error err => (target, some err)
  | .ok v => decodeValue target v

/-! ## `CreateChangeEvent` -/

/-- The receiver `*Client`: the field `CreateChangeEvent` reads, and in `rest`
all that the rest of the package keeps in the client or reaches through it. -/
structure Client (κ : Type) where
  v2EventsAPIEndpoint : String
  rest : κ

/-- The arguments of one call of `doWithEndpoint`. -/
structure DispatchCall where
  endpoint : String
  method : String
  path : String
  authRequired : Bool
  body : String
  headers : List (String × String)
  deriving DecidableEq, Repr

/-- The `*http.Response` as far as `CreateChangeEvent` reads it. -/
structure HttpResponse where
  Body : String
  deriving DecidableEq, Repr

/-- How a call of a Go function ends: it returns its values, or it panics
(here: on reading `resp.Body` through a nil `resp`). -/
inductive Outcome (α : Type) where
  | returned (values : α)
  | panicked
  deriving DecidableEq, Repr

/-- The method `doWithEndpoint` of the client, which is defined in another file
of the package: any function from the call and the client before it to the
returned pair `(resp, err)` and the client after it. -/
abbrev Dispatch (κ : Type) :=
  DispatchCall → Client κ → (Option HttpResponse × Option GoError) × Client κ

/-- The zero value of `ChangeEventResponse`, as `var eventResponse` declares it. -/
def ChangeEventResponse.zero : ChangeEventResponse := ⟨"", "", none⟩

/-- The method `CreateChangeEvent`: how the call ends and the client after it. -/
def CreateChangeEvent {κ : Type} (doWithEndpoint : Dispatch κ) (e : ChangeEvent)
    (c : Client κ) : Outcome (Option ChangeEventResponse × Option GoError) × Client κ :=
  if c.v2EventsAPIEndpoint = "" then
    (.returned (none, some (.errorsNew "v2EventsAPIEndpoint field must be set on Client")), c)
  else
    let headers : List (String × String) := []
    match jsonMarshal e with
    | .error err => (.returned (none, some err), c)
    | .ok data =>
      match doWithEndpoint ⟨c.v2EventsAPIEndpoint, "POST", ChangeEventPath, false, data, headers⟩ c with
      | ((_, some err), c1) => (.returned (none, some err), c1)
      | ((none, none), c1) => (.panicked, c1)
      | ((some resp, none), c1) =>
        match jsonDecode resp.Body ChangeEventResponse.zero with
        | (_, some err) => (.returned (none, some err), c1)
        | (eventResponse, none) => (.returned (some eventResponse, none), c1)

/-- A helper that also writes each call it receives at the end of a log kept
beside the client's own state; apart from the log it behaves as `h`. -/
def recording {κ : Type} (h : Dispatch κ) : Dispatch (κ × List DispatchCall) :=
  fun call c =>
    match h call ⟨c.v2EventsAPIEndpoint, c.rest.1⟩ with
    | (r, c1) => (r, ⟨c1.v2EventsAPIEndpoint, (c1.rest, c.rest.2 ++ [call])⟩)

/-! ## Values the statements speak about -/

/-- The JSON value the encoder writes for a `ChangeEvent`. -/
def eventJson (e : ChangeEvent) : Json :=
  .obj [("routing_key", .str e.RoutingKey),
        ("payload", .obj [("source", .str e.Payload.Source),
                          ("summary", .str e.Payload.Summary),
                          ("timestamp", .str e.Payload.Timestamp),
                          ("custom_details",
                            match e.Payload.CustomDetails with
                            | none => .null
                            | some es => .obj ((sortByKey es).map fun kv => (kv.1, Json.str kv.2)))]),
        ("links",
          match e.Links with
          | none => .null
          | some links => .arr (links.map fun l =>
              Json.obj [("href", .str l.Href), ("text", .str l.Text)]))]

/-- The call `CreateChangeEvent` makes for a client and a marshalled event. -/
def changeEventCall {κ : Type} (c : Client κ) (data : String) : DispatchCall :=
  ⟨c.v2EventsAPIEndpoint, "POST", ChangeEventPath, false, data, []⟩


/-- The string a JSON value holds, if it holds one. -/
def Json.string? : Json → Option String
  | .str s => some s
  | _ => none

/-- A JSON value is a string. -/
def Json.isString : Json → Bool
  | .str _ => true
  | _ => false

/-- A JSON value fits a Go `string`: it is a string or `null`. -/
def fitsString : Json → Bool
  | .str _ => true
  | .null => true
  | _ => false

/-- A JSON value fits a `[]string`: it is `null` or an array of values that
fit a `string`. -/
def fitsStringSlice : Json → Bool
  | .null => true
  | .arr elems => elems.all fitsString
  | _ => false

/-- A member fits `ChangeEventResponse`: its key names no field, or its value
fits the field the key names. -/
def fitsMember (m : String × Json) : Bool :=
  match findField m.1 with
  | none => true
  | some .Status => fitsString m.2
  | some .Message => fitsString m.2
  | some .Errors => fitsStringSlice m.2

/-- A JSON value fits `ChangeEventResponse`: it is `null` or an object whose
members all fit. -/
def fitsResponse : Json → Bool
  | .null => true
  | .obj members => members.all fitsMember
  | _ => false

/-- A member holds what its field is declared to hold: a string or `null` for
`status` and `message`, an array of strings or `null` for `errors`; a member
whose key names no field holds anything. -/
def typedMember (m : String × Json) : Bool :=
  match findField m.1 with
  | none => true
  | some .Status => fitsString m.2
  | some .Message => fitsString m.2
  | some .Errors =>
    match m.2 with
    | .null => true
    | .arr elems => elems.all Json.isString
    | _ => false

/-- The string of the last member that names field `f` and holds a string,
the empty string if there is none. -/
def lastString (f : ResponseField) (members : List (String × Json)) : String :=
  ((members.filterMap fun m => if findField m.1 = some f then m.2.string? else none).getLast?).getD ""

/-- The strings of the array of the last member that names `errors`; nil if
that member holds `null` or no member names `errors`. -/
def lastErrors (members : List (String × Json)) : Option (List String) :=
  match (members.filter fun m => findField m.1 = some ResponseField.Errors).getLast? with
  | some (_, .arr elems) => some (elems.filterMap Json.string?)
  | _ => none

/-- What the decoder has stored after the members `ms`, each of them typed. -/
def Stored (st : DecodeState) (ms : List (String × Json)) : Prop :=
  st.Status = lastString .Status ms ∧ st.Message = lastString .Message ms ∧
    StringSlice.toList st.Errors = lastErrors ms ∧ st.savedError = none

/-! ## Concrete inputs -/

/-- An event with a link and custom details. -/
def sampleEvent : ChangeEvent :=
  ⟨"R0123456789", ⟨"ci", "Deploy 42", "2021-03-01T10:00:00Z", some [("env", "prod"), ("build", "42")]⟩,
    some [⟨"https://ci.example.com/42", "Build 42"⟩]⟩

/-- The event with every field at its zero value. -/
def zeroEvent : ChangeEvent := ⟨"", ⟨"", "", "", none⟩, none⟩

/-- A client with the endpoint set and an empty log. -/
def sampleClient : Client (Unit × List DispatchCall) :=
  ⟨"https://events.pagerduty.com", ((), [])⟩

/-- A client with no endpoint set and an empty log. -/
def unsetClient : Client (Unit × List DispatchCall) := ⟨"", ((), [])⟩

/-- A helper that answers every call with the given body and no error. -/
def answering {κ : Type} (body : String) : Dispatch κ :=
  fun _ c => ((some ⟨body⟩, none), c)

/-- A helper that answers every call with the given error, and with a
response beside it. -/
def failing {κ : Type} (err : GoError) : Dispatch κ :=
  fun _ c => ((some ⟨"\x7b\"status\":\"success\"\x7d"⟩, some err), c)

/-! ## What enough fuel means -/

/-- With fuel `fuel`, reading a value does not run out where the fuel is twice
the length of the text and one more, and it leaves less text than it got. -/
def ValueFuel (fuel : Nat) : Prop :=
  ∀ depth input,
    (2 * input.length + 1 ≤ fuel → parseValue fuel depth input ≠ .outOfFuel) ∧
      ∀ v rest, parseValue fuel depth input = .done v rest → rest.length < input.length

/-- The same for the elements of an array, with one more unit of fuel. -/
def ElemsFuel (fuel : Nat) : Prop :=
  ∀ depth acc input,
    (2 * input.length + 2 ≤ fuel → parseElems fuel depth acc input ≠ .outOfFuel) ∧
      ∀ v rest, parseElems fuel depth acc input = .done v rest → rest.length < input.length

/-- The same for the members of an object. -/
def MembersFuel (fuel : Nat) : Prop :=
  ∀ depth acc input,
    (2 * input.length + 2 ≤ fuel → parseMembers fuel depth acc input ≠ .outOfFuel) ∧
      ∀ v rest, parseMembers fuel depth acc input = .done v rest → rest.length < input.length

/-- The reader reads the text of `j` back as `j`, with any text after it, when
it has fuel for the text and `nesting` more containers may be opened. -/
def ReadsBack (j : Json) (nesting : Nat) : Prop :=
  ∀ fuel depth tail, 2 * (j.renderChars ++ tail).length + 1 ≤ fuel →
    depth + nesting ≤ maxNestingDepth →
    parseValue fuel depth (j.renderChars ++ tail) = .done j tail
/-! ## The encoder on a `ChangeEvent` -/

theorem insertByKey_map {α β : Type} (g : α → β) (kv : String × α) (l : List (String × α)) :
    insertByKey (kv.1, g kv.2) (l.map fun x => (x.1, g x.2)) =
      (insertByKey kv l).map fun x => (x.1, g x.2) := by
  induction l with
  | nil => rfl
  | cons x xs ih =>
    simp only [List.map_cons, insertByKey]
    split
    · rfl
    · simp only [List.map_cons, ih]

theorem sortByKey_map {α β : Type} (g : α → β) (l : List (String × α)) :
    sortByKey (l.map fun x => (x.1, g x.2)) = (sortByKey l).map fun x => (x.1, g x.2) := by
  induction l with
  | nil => rfl
  | cons x xs ih =>
    simp only [List.map_cons, sortByKey, ih]
    exact insertByKey_map g x (sortByKey xs)

theorem collectMembers_ok (l : List (String × Json)) :
    collectMembers (l.map fun x => (x.1, Except.ok x.2)) = .ok l := by
  induction l with
  | nil => rfl
  | cons x xs ih =>
    obtain ⟨k, j⟩ := x
    simp only [List.map_cons, collectMembers, ih]

theorem encodeEntries_strings (es : List (String × String)) :
    encodeEntries (es.map fun kv => (kv.1, GoValue.string kv.2)) =
      es.map fun kv => (kv.1, Except.ok (Json.str kv.2)) := by
  induction es with
  | nil => simp [encodeEntries]
  | cons x xs ih => simp [encodeEntries, encodeValue, ih]

theorem encodeElems_links (links : List Link) :
    encodeElems (links.map Link.reflect) =
      .ok (links.map fun l => Json.obj [("href", .str l.Href), ("text", .str l.Text)]) := by
  induction links with
  | nil => simp [encodeElems]
  | cons x xs ih => simp [encodeElems, encodeValue, encodeFields, Link.reflect, ih]

/-- The JSON value the encoder writes for a `map[string]string`. -/
theorem encodeValue_stringMap (m : Option (List (String × String))) :
    encodeValue (reflectStringMap m) =
      .ok (match m with
        | none => Json.null
        | some es => Json.obj ((sortByKey es).map fun kv => (kv.1, Json.str kv.2))) := by
  cases m with
  | none => simp [reflectStringMap, encodeValue]
  | some es =>
    have h1 := sortByKey_map (fun v : String => (Except.ok (Json.str v) : Except GoError Json)) es
    have h2 := collectMembers_ok ((sortByKey es).map fun kv => (kv.1, Json.str kv.2))
    simp only [List.map_map] at h2
    simp only [reflectStringMap, encodeValue, encodeEntries_strings, h1]
    rw [show (List.map (fun x => (x.1, (Except.ok (Json.str x.2) : Except GoError Json))) (sortByKey es))
        = List.map ((fun x => (x.1, Except.ok x.2)) ∘ fun kv => (kv.1, Json.str kv.2)) (sortByKey es) from rfl]
    rw [h2]

/-- The JSON value the encoder writes for a `[]Link`. -/
theorem encodeValue_links (ls : Option (List Link)) :
    encodeValue (reflectLinks ls) =
      .ok (match ls with
        | none => Json.null
        | some links => Json.arr (links.map fun l =>
            Json.obj [("href", .str l.Href), ("text", .str l.Text)])) := by
  cases ls with
  | none => simp [reflectLinks, encodeValue]
  | some links => simp [reflectLinks, encodeValue, encodeElems_links]

theorem encodeValue_event (e : ChangeEvent) : encodeValue e.reflect = .ok (eventJson e) := by
  simp [ChangeEvent.reflect, Payload.reflect, encodeValue, encodeFields,
    encodeValue_stringMap, encodeValue_links, eventJson]

theorem jsonMarshal_event (e : ChangeEvent) : jsonMarshal e = .ok (eventJson e).render := by
  simp [jsonMarshal, marshalValue, encodeValue_event]

/-- The text marshalled for the event whose fields are all zero. -/
theorem jsonMarshal_zeroEvent :
    jsonMarshal zeroEvent = .ok "\x7b\"routing_key\":\"\",\"payload\":\x7b\"source\":\"\",\"summary\":\"\",\"timestamp\":\"\",\"custom_details\":null\x7d,\"links\":null\x7d" :=
  rfl

/-- The text marshalled for an event with a link and custom details. -/
theorem jsonMarshal_sampleEvent :
    jsonMarshal sampleEvent = .ok "\x7b\"routing_key\":\"R0123456789\",\"payload\":\x7b\"source\":\"ci\",\"summary\":\"Deploy 42\",\"timestamp\":\"2021-03-01T10:00:00Z\",\"custom_details\":\x7b\"build\":\"42\",\"env\":\"prod\"\x7d\x7d,\"links\":[\x7b\"href\":\"https://ci.example.com/42\",\"text\":\"Build 42\"\x7d]\x7d" :=
  rfl

/-- The encoder refuses a struct with a channel in it: the encoder of the
model can fail, only not on a `ChangeEvent`. -/
theorem marshalValue_chan :
    marshalValue (.struct [(⟨"routing_key", false⟩, .string "k"), (⟨"done", false⟩, .chan)]) =
      .error (.unsupportedType "chan") := rfl

/-! ## The calls of the dispatch helper -/

theorem recording_log {κ : Type} (h : Dispatch κ) (call : DispatchCall)
    (c : Client (κ × List DispatchCall)) :
    (recording h call c).2.rest.2 = c.rest.2 ++ [call] := by
  simp [recording]

theorem recording_result {κ : Type} (h : Dispatch κ) (call : DispatchCall)
    (c : Client (κ × List DispatchCall)) :
    (recording h call c).1 = (h call ⟨c.v2EventsAPIEndpoint, c.rest.1⟩).1 := by
  simp [recording]

/-- With an endpoint set, the client after the call is the client the one call
of the helper left. -/
theorem CreateChangeEvent_client {κ : Type} (h : Dispatch κ) (e : ChangeEvent) (c : Client κ)
    (hne : c.v2EventsAPIEndpoint ≠ "") :
    (CreateChangeEvent h e c).2 = (h (changeEventCall c (eventJson e).render) c).2 := by
  simp only [CreateChangeEvent, hne, if_false, jsonMarshal_event, changeEventCall]
  rcases h ⟨c.v2EventsAPIEndpoint, "POST", ChangeEventPath, false, (eventJson e).render, []⟩ c
    with ⟨⟨resp, err⟩, c1⟩
  cases resp with
  | none => cases err <;> rfl
  | some resp =>
    cases err with
    | some err => rfl
    | none =>
      simp only
      rcases jsonDecode resp.Body ChangeEventResponse.zero with ⟨r, err⟩
      cases err <;> rfl

/-- With an endpoint set, the outcome is decided by what the one call of the
helper returned. -/
theorem CreateChangeEvent_outcome {κ : Type} (h : Dispatch κ) (e : ChangeEvent) (c : Client κ)
    (hne : c.v2EventsAPIEndpoint ≠ "") :
    (CreateChangeEvent h e c).1 =
      match (h (changeEventCall c (eventJson e).render) c).1 with
      | (_, some err) => .returned (none, some err)
      | (none, none) => .panicked
      | (some resp, none) =>
        match jsonDecode resp.Body ChangeEventResponse.zero with
        | (_, some err) => .returned (none, some err)
        | (eventResponse, none) => .returned (some eventResponse, none) := by
  simp only [CreateChangeEvent, hne, if_false, jsonMarshal_event, changeEventCall]
  rcases h ⟨c.v2EventsAPIEndpoint, "POST", ChangeEventPath, false, (eventJson e).render, []⟩ c
    with ⟨⟨resp, err⟩, c1⟩
  cases resp with
  | none => cases err <;> rfl
  | some resp =>
    cases err with
    | some err => rfl
    | none =>
      simp only
      rcases jsonDecode resp.Body ChangeEventResponse.zero with ⟨r, err⟩
      cases err <;> rfl

/-- The log of a recording helper after one call of `CreateChangeEvent`. -/
theorem CreateChangeEvent_log {κ : Type} (h : Dispatch κ) (e : ChangeEvent)
    (c : Client (κ × List DispatchCall)) :
    (CreateChangeEvent (recording h) e c).2.rest.2 =
      c.rest.2 ++ (if c.v2EventsAPIEndpoint = "" then []
        else [changeEventCall c (eventJson e).render]) := by
  by_cases hep : c.v2EventsAPIEndpoint = ""
  · simp [CreateChangeEvent, hep]
  · rw [CreateChangeEvent_client (recording h) e c hep, recording_log]
    simp [hep]

/-! ## The decoder on a `ChangeEventResponse` -/

theorem firstError_eq_none (a b : Option GoError) :
    firstError a b = none ↔ a = none ∧ b = none := by
  cases a <;> simp [firstError]

theorem storeString_error (target : String) (v : Json) :
    (storeString target v).2 = none ↔ fitsString v = true := by
  cases v <;> simp [storeString, fitsString]

theorem storeElems_error (elems : List Json) (i : Nat) (backing : List String) (len : Nat)
    (saved : Option GoError) :
    (storeElems elems i backing len saved).2.2.2 = none ↔
      saved = none ∧ elems.all fitsString = true := by
  induction elems generalizing i backing len saved with
  | nil => simp [storeElems]
  | cons v rest ih =>
    simp only [storeElems, ih, firstError_eq_none, storeString_error, List.all_cons,
      Bool.and_eq_true]
    tauto

theorem storeStringSlice_error (target : StringSlice) (saved : Option GoError) (v : Json) :
    (storeStringSlice target saved v).2 = none ↔ saved = none ∧ fitsStringSlice v = true := by
  cases v with
  | arr elems =>
    simp only [storeStringSlice, storeArray, fitsStringSlice]
    rw [← storeElems_error elems 0 (Option.getD target ([], 0)).1 (Option.getD target ([], 0)).2 saved]
    rcases storeElems elems 0 (Option.getD target ([], 0)).1 (Option.getD target ([], 0)).2 saved
      with ⟨b, l, i, s⟩
    simp only
    split <;> rfl
  | null => simp [storeStringSlice, fitsStringSlice]
  | bool b => simp [storeStringSlice, fitsStringSlice, firstError_eq_none]
  | num n => simp [storeStringSlice, fitsStringSlice, firstError_eq_none]
  | str s => simp [storeStringSlice, fitsStringSlice, firstError_eq_none]
  | obj ms => simp [storeStringSlice, fitsStringSlice, firstError_eq_none]

theorem storeMember_error (st : DecodeState) (m : String × Json) :
    (storeMember st m).savedError = none ↔ st.savedError = none ∧ fitsMember m = true := by
  unfold storeMember fitsMember
  cases hf : findField m.1 with
  | none => simp
  | some f =>
    cases f <;>
      simp [firstError_eq_none, storeString_error, storeStringSlice_error]

theorem foldl_storeMember_error (ms : List (String × Json)) (st : DecodeState) :
    (ms.foldl storeMember st).savedError = none ↔
      st.savedError = none ∧ ms.all fitsMember = true := by
  induction ms generalizing st with
  | nil => simp
  | cons m rest ih =>
    simp only [List.foldl_cons, ih, storeMember_error, List.all_cons, Bool.and_eq_true]
    tauto

/-- The decoder returns no error exactly on the values that fit the struct. -/
theorem decodeValue_error (target : ChangeEventResponse) (v : Json) :
    (decodeValue target v).2 = none ↔ fitsResponse v = true := by
  cases v with
  | obj ms => simp [decodeValue, fitsResponse, foldl_storeMember_error, DecodeState.start]
  | null => simp [decodeValue, fitsResponse]
  | bool b => simp [decodeValue, fitsResponse]
  | num n => simp [decodeValue, fitsResponse]
  | str s => simp [decodeValue, fitsResponse]
  | arr xs => simp [decodeValue, fitsResponse]

/-- The call of `Decode` returns no error exactly when the body begins with a JSON value
that fits the struct. -/
theorem jsonDecode_error (body : String) (target : ChangeEventResponse) :
    (jsonDecode body target).2 = none ↔
      ∃ v, readValue body = .ok v ∧ fitsResponse v = true := by
  unfold jsonDecode
  cases hread : readValue body with
  | error err => simp
  | ok v => simp [decodeValue_error]

theorem take_succ_set (l : List String) (i : Nat) (s : String) (hi : i < l.length) :
    (l.set i s).take (i + 1) = l.take i ++ [s] := by
  induction l generalizing i with
  | nil => simp at hi
  | cons x xs ih =>
    cases i with
    | zero => simp
    | succ j =>
      simp only [List.length_cons, Nat.add_lt_add_iff_right] at hi
      simp [List.set, List.take, ih j hi]

theorem firstError_none_right (saved : Option GoError) : firstError saved none = saved := by
  cases saved <;> rfl

/-- The loop of `array` on an array of strings: the slice then holds, from
element `i` on, the strings of the array. -/
theorem storeElems_strings (elems : List Json) (hall : elems.all Json.isString = true)
    (i : Nat) (backing : List String) (len : Nat) (saved : Option GoError)
    (hi : i ≤ backing.length) (hlen : i ≤ len) :
    (storeElems elems i backing len saved).2.2.1 = i + elems.length ∧
      (storeElems elems i backing len saved).2.2.2 = saved ∧
      (storeElems elems i backing len saved).1.take (i + elems.length) =
        backing.take i ++ elems.filterMap Json.string? ∧
      i + elems.length ≤ (storeElems elems i backing len saved).2.1 := by
  induction elems generalizing i backing len saved with
  | nil => simp [storeElems, hlen]
  | cons v rest ih =>
    simp only [List.all_cons, Bool.and_eq_true] at hall
    obtain ⟨hv, hrest⟩ := hall
    cases v with
    | str s =>
      have hb1 : i < (if i ≥ backing.length then backing ++ [""] else backing).length := by
        split
        · simp; omega
        · omega
      have htake : (if i ≥ backing.length then backing ++ [""] else backing).take i =
          backing.take i := by
        split
        · exact List.take_append_of_le_length hi
        · rfl
      have hlen1 : i + 1 ≤ (if i ≥ len then i + 1 else len) := by
        split <;> omega
      have hi1 : i + 1 ≤
          ((if i ≥ backing.length then backing ++ [""] else backing).set i s).length := by
        rw [List.length_set]; omega
      obtain ⟨h1, h2, h3, h4⟩ := ih hrest (i + 1)
        ((if i ≥ backing.length then backing ++ [""] else backing).set i s)
        (if i ≥ len then i + 1 else len) saved hi1 hlen1
      simp only [storeElems, storeString, firstError_none_right, List.length_cons,
        List.filterMap_cons, Json.string?]
      refine ⟨by rw [h1]; omega, h2, ?_, by omega⟩
      rw [show i + (rest.length + 1) = i + 1 + rest.length by omega, h3,
        take_succ_set _ _ _ hb1, htake]
      simp
    | null => simp [Json.isString] at hv
    | bool b => simp [Json.isString] at hv
    | num n => simp [Json.isString] at hv
    | arr xs => simp [Json.isString] at hv
    | obj ms => simp [Json.isString] at hv

/-- The decoder's `array` on an array of strings: the slice is then the list
of these strings, whatever it held before. -/
theorem storeArray_strings (elems : List Json) (hall : elems.all Json.isString = true)
    (target : StringSlice) (saved : Option GoError) :
    StringSlice.toList (storeArray elems target saved).1 = some (elems.filterMap Json.string?) ∧
      (storeArray elems target saved).2 = saved := by
  obtain ⟨h1, h2, h3, h4⟩ := storeElems_strings elems hall 0 (Option.getD target ([], 0)).1
    (Option.getD target ([], 0)).2 saved (Nat.zero_le _) (Nat.zero_le _)
  have hdef : storeArray elems target saved =
      (if (storeElems elems 0 (Option.getD target ([], 0)).1
            (Option.getD target ([], 0)).2 saved).2.2.1 = 0 then
        (some ([], 0), (storeElems elems 0 (Option.getD target ([], 0)).1
            (Option.getD target ([], 0)).2 saved).2.2.2)
      else
        (some ((storeElems elems 0 (Option.getD target ([], 0)).1
            (Option.getD target ([], 0)).2 saved).1,
          if (storeElems elems 0 (Option.getD target ([], 0)).1
              (Option.getD target ([], 0)).2 saved).2.2.1 <
            (storeElems elems 0 (Option.getD target ([], 0)).1
              (Option.getD target ([], 0)).2 saved).2.1 then
            (storeElems elems 0 (Option.getD target ([], 0)).1
              (Option.getD target ([], 0)).2 saved).2.2.1
          else (storeElems elems 0 (Option.getD target ([], 0)).1
              (Option.getD target ([], 0)).2 saved).2.1),
          (storeElems elems 0 (Option.getD target ([], 0)).1
            (Option.getD target ([], 0)).2 saved).2.2.2)) := rfl
  rw [hdef]
  generalize storeElems elems 0 (Option.getD target ([], 0)).1
    (Option.getD target ([], 0)).2 saved = r at h1 h2 h3 h4
  obtain ⟨b, l, i, s⟩ := r
  simp only [Nat.zero_add, List.take_zero, List.nil_append] at h1 h2 h3 h4
  subst h1 h2
  split
  · rename_i h0
    have : elems = [] := List.length_eq_zero.mp h0
    subst this
    simp [StringSlice.toList]
  · have hl : (if elems.length < l then elems.length else l) = elems.length := by
      split <;> omega
    simp [StringSlice.toList, hl, h3]

theorem lastString_append (f : ResponseField) (ms : List (String × Json)) (m : String × Json) :
    lastString f (ms ++ [m]) =
      match (if findField m.1 = some f then m.2.string? else none) with
      | some s => s
      | none => lastString f ms := by
  unfold lastString
  rw [List.filterMap_append]
  cases hm : (if findField m.1 = some f then m.2.string? else none) with
  | none => simp [List.filterMap_cons, hm]
  | some s => simp [List.filterMap_cons, hm]

theorem lastErrors_append (ms : List (String × Json)) (m : String × Json) :
    lastErrors (ms ++ [m]) =
      if findField m.1 = some ResponseField.Errors then
        match m.2 with
        | .arr elems => some (elems.filterMap Json.string?)
        | _ => none
      else lastErrors ms := by
  unfold lastErrors
  rw [List.filter_append]
  by_cases hm : findField m.1 = some ResponseField.Errors
  · obtain ⟨k, v⟩ := m
    simp only [List.filter_cons, hm, decide_True, if_true, List.filter_nil, List.getLast?_concat]
    cases v <;> rfl
  · simp [List.filter_cons, hm]

theorem storeMember_stored (st : DecodeState) (ms : List (String × Json)) (m : String × Json)
    (hst : Stored st ms) (hm : typedMember m = true) :
    Stored (storeMember st m) (ms ++ [m]) := by
  obtain ⟨h1, h2, h3, h4⟩ := hst
  obtain ⟨k, v⟩ := m
  unfold typedMember at hm
  unfold Stored storeMember
  simp only [lastString_append, lastErrors_append]
  cases hf : findField k with
  | none => simp [h1, h2, h3, h4]
  | some f =>
    simp only [hf] at hm
    cases f with
    | Status =>
      cases v <;> simp_all [storeString, fitsString, Json.string?, firstError]
    | Message =>
      cases v <;> simp_all [storeString, fitsString, Json.string?, firstError]
    | Errors =>
      cases v with
      | null => simp [storeStringSlice, h1, h2, h4, StringSlice.toList]
      | arr elems =>
        simp only at hm
        obtain ⟨ha, hb⟩ := storeArray_strings elems hm st.Errors none
        simp [storeStringSlice, h1, h2, h4, ha, hb]
      | bool b => simp at hm
      | num n => simp at hm
      | str s => simp at hm
      | obj xs => simp at hm

theorem foldl_storeMember_stored (ms pre : List (String × Json)) (st : DecodeState)
    (hst : Stored st pre) (hms : ms.all typedMember = true) :
    Stored (ms.foldl storeMember st) (pre ++ ms) := by
  induction ms generalizing pre st with
  | nil => simpa using hst
  | cons m rest ih =>
    simp only [List.all_cons, Bool.and_eq_true] at hms
    have := ih (pre ++ [m]) (storeMember st m) (storeMember_stored st pre m hst hms.1) hms.2
    simpa using this

/-- The decoder on an object whose members are typed. -/
theorem decodeValue_typed (ms : List (String × Json)) (hms : ms.all typedMember = true) :
    decodeValue ChangeEventResponse.zero (.obj ms) =
      (⟨lastString .Status ms, lastString .Message ms, lastErrors ms⟩, none) := by
  have hstart : Stored (DecodeState.start ChangeEventResponse.zero) [] := by
    simp [Stored, DecodeState.start, ChangeEventResponse.zero, lastString, lastErrors,
      StringSlice.toList]
  obtain ⟨h1, h2, h3, h4⟩ := foldl_storeMember_stored ms [] _ hstart hms
  simp only [List.nil_append] at h1 h2 h3
  simp [decodeValue, DecodeState.response, h1, h2, h3, h4]

/-! ## The fuel of the reader is enough -/

theorem skipSpace_length (l : List Char) : (skipSpace l).length ≤ l.length := by
  induction l with
  | nil => simp [skipSpace]
  | cons c rest ih =>
    simp only [skipSpace]
    split
    · simp only [List.length_cons]; omega
    · simp

theorem skipSpace_cons_length {l rest : List Char} {c : Char} (h : skipSpace l = c :: rest) :
    rest.length < l.length := by
  have := skipSpace_length l
  rw [h] at this
  simpa using this

theorem readHex_length (n acc : Nat) (l : List Char) (v : Nat) (rest : List Char)
    (h : readHex n acc l = .ok (v, rest)) : rest.length ≤ l.length := by
  induction n generalizing acc l with
  | zero =>
    simp only [readHex, Except.ok.injEq, Prod.mk.injEq] at h
    rw [h.2]
  | succ k ih =>
    cases l with
    | nil => simp [readHex] at h
    | cons c cs =>
      simp only [readHex] at h
      split at h
      · cases h
      · have := ih _ _ h
        simp only [List.length_cons]
        omega

theorem readLowSurrogate_length (hi : Nat) (l : List Char) (ch : Char) (rest : List Char)
    (h : readLowSurrogate hi l = some (ch, rest)) : rest.length ≤ l.length := by
  unfold readLowSurrogate at h
  split at h
  · split at h
    · rename_i lo rest1 hhex
      split at h
      · simp only [Option.some.injEq, Prod.mk.injEq] at h
        have := readHex_length _ _ _ _ _ hhex
        rw [← h.2]
        simp only [List.length_cons]
        omega
      · cases h
    · cases h
  · cases h

theorem readString_fuel (fuel : Nat) (acc input : List Char) (hfuel : input.length < fuel) :
    readString fuel acc input ≠ .outOfFuel ∧
      ∀ s rest, readString fuel acc input = .done s rest → rest.length < input.length := by
  induction fuel generalizing acc input with
  | zero => omega
  | succ n ih =>
    cases input with
    | nil => simp [readString]
    | cons c rest0 =>
      simp only [List.length_cons, Nat.add_lt_add_iff_right] at hfuel
      simp only [readString, List.length_cons]
      split
      · refine ⟨by simp, ?_⟩
        intro s rest h
        simp only [Read.done.injEq] at h
        rw [← h.2]
        omega
      · split
        · split
          · simp
          · rename_i e rest1
            simp only [List.length_cons] at hfuel
            split
            · split
              · simp
              · rename_i r rest2 hhex
                have h2 := readHex_length _ _ _ _ _ hhex
                split
                · split
                  · rename_i ch rest3 hlow
                    have h3 := readLowSurrogate_length _ _ _ _ hlow
                    obtain ⟨ha, hb⟩ := ih (ch :: acc) rest3 (by omega)
                    refine ⟨ha, fun s rest h => ?_⟩
                    have := hb s rest h
                    simp only [List.length_cons]
                    omega
                  · obtain ⟨ha, hb⟩ := ih ('\uFFFD' :: acc) rest2 (by omega)
                    refine ⟨ha, fun s rest h => ?_⟩
                    have := hb s rest h
                    simp only [List.length_cons]
                    omega
                · obtain ⟨ha, hb⟩ := ih (Char.ofNat r :: acc) rest2 (by omega)
                  refine ⟨ha, fun s rest h => ?_⟩
                  have := hb s rest h
                  simp only [List.length_cons]
                  omega
            · split
              · simp
              · rename_i ch hesc
                obtain ⟨ha, hb⟩ := ih (ch :: acc) rest1 (by omega)
                refine ⟨ha, fun s rest h => ?_⟩
                have := hb s rest h
                simp only [List.length_cons]
                omega
        · split
          · simp
          · obtain ⟨ha, hb⟩ := ih (c :: acc) rest0 hfuel
            refine ⟨ha, fun s rest h => ?_⟩
            have := hb s rest h
            omega

theorem readLiteral_length (lit input rest : List Char)
    (h : readLiteral lit input = .ok rest) : rest.length ≤ input.length := by
  induction lit generalizing input with
  | nil =>
    simp only [readLiteral, Except.ok.injEq] at h
    rw [h]
  | cons c cs ih =>
    cases input with
    | nil => simp [readLiteral] at h
    | cons d ds =>
      simp only [readLiteral] at h
      split at h
      · have := ih _ h
        simp only [List.length_cons]
        omega
      · cases h

theorem span_snd_length (p : Char → Bool) (l : List Char) : (l.span p).2.length ≤ l.length := by
  rw [List.span_eq_take_drop]
  simp only
  exact (List.dropWhile_sublist p).length_le

theorem readDigits_length (input ds rest : List Char)
    (h : readDigits input = .ok (ds, rest)) : rest.length < input.length := by
  cases input with
  | nil => simp [readDigits] at h
  | cons c cs =>
    simp only [readDigits] at h
    split at h
    · rename_i hc
      simp only [Except.ok.injEq] at h
      have h2 : ((c :: cs).span isDigit).2 = rest := by rw [h]
      have h3 : ((c :: cs).span isDigit).2 = (cs.span isDigit).2 := by
        simp [List.span_eq_take_drop, List.dropWhile_cons, hc]
      have := span_snd_length isDigit cs
      rw [← h2, h3]
      simp only [List.length_cons]
      omega
    · cases h

theorem readExponent_length (lit input out rest : List Char)
    (h : readExponent lit input = .ok (out, rest)) : rest.length ≤ input.length := by
  unfold readExponent at h
  split at h
  · rename_i e rest0
    split at h
    · split at h
      · rename_i s rest1
        split at h
        · split at h
          · cases h
          · rename_i ds rest2 hd
            have := readDigits_length _ _ _ hd
            simp only [Except.ok.injEq, Prod.mk.injEq] at h
            rw [← h.2]
            simp only [List.length_cons]
            omega
        · split at h
          · cases h
          · rename_i ds rest2 hd
            have := readDigits_length _ _ _ hd
            simp only [Except.ok.injEq, Prod.mk.injEq] at h
            rw [← h.2]
            simp only [List.length_cons] at this ⊢
            omega
      · cases h
    · simp only [Except.ok.injEq, Prod.mk.injEq] at h
      rw [← h.2]
  · simp only [Except.ok.injEq, Prod.mk.injEq] at h
    rw [← h.2]

theorem readFraction_length (lit input out rest : List Char)
    (h : readFraction lit input = .ok (out, rest)) : rest.length ≤ input.length := by
  unfold readFraction at h
  split at h
  · rename_i c rest0
    split at h
    · split at h
      · cases h
      · rename_i ds rest1 hd
        have h1 := readDigits_length _ _ _ hd
        have h2 := readExponent_length _ _ _ _ h
        simp only [List.length_cons]
        omega
    · exact readExponent_length _ _ _ _ h
  · simp only [Except.ok.injEq, Prod.mk.injEq] at h
    rw [← h.2]

theorem readInteger_length (lit input out rest : List Char)
    (h : readInteger lit input = .ok (out, rest)) : rest.length < input.length := by
  unfold readInteger at h
  split at h
  · cases h
  · rename_i c rest0
    split at h
    · have := readFraction_length _ _ _ _ h
      simp only [List.length_cons]
      omega
    · split at h
      · rename_i hc
        have h1 := readFraction_length _ _ _ _ h
        have h3 : ((c :: rest0).span isDigit).2 = (rest0.span isDigit).2 := by
          simp [List.span_eq_take_drop, List.dropWhile_cons, hc]
        have h4 := span_snd_length isDigit rest0
        rw [h3] at h1
        simp only [List.length_cons]
        omega
      · cases h

theorem readNumber_length (input out rest : List Char)
    (h : readNumber input = .ok (out, rest)) : rest.length < input.length := by
  unfold readNumber at h
  split at h
  · rename_i c rest0
    split at h
    · have := readInteger_length _ _ _ _ h
      simp only [List.length_cons]
      omega
    · exact readInteger_length _ _ _ _ h
  · cases h

theorem parseValue_step (n : Nat) (ihE : ElemsFuel n) (ihM : MembersFuel n) :
    ValueFuel (n + 1) := by
  intro d input
  rcases hs : skipSpace input with _ | ⟨c, rest0⟩
  · simp [parseValue, hs]
  · have hlen := skipSpace_cons_length hs
    simp only [parseValue, hs]
    by_cases h1 : c = '\x7b'
    · simp only [h1, if_true]
      by_cases hd : d ≥ maxNestingDepth
      · simp [hd]
      · simp only [hd, if_false]
        rcases hs1 : skipSpace rest0 with _ | ⟨c1, rest1⟩
        · simp
        · have hlen1 := skipSpace_cons_length hs1
          simp only
          by_cases h2 : c1 = '\x7d'
          · simp only [h2, if_true]
            refine ⟨by simp, fun v rest h => ?_⟩
            simp only [Read.done.injEq] at h
            rw [← h.2]
            omega
          · simp only [h2, if_false]
            obtain ⟨ha, hb⟩ := ihM (d + 1) [] (c1 :: rest1)
            refine ⟨fun hf => ha (by simp only [List.length_cons]; omega), fun v rest h => ?_⟩
            have := hb v rest h
            simp only [List.length_cons] at this
            omega
    · simp only [h1, if_false]
      by_cases h3 : c = '['
      · simp only [h3, if_true]
        by_cases hd : d ≥ maxNestingDepth
        · simp [hd]
        · simp only [hd, if_false]
          rcases hs1 : skipSpace rest0 with _ | ⟨c1, rest1⟩
          · simp
          · have hlen1 := skipSpace_cons_length hs1
            simp only
            by_cases h2 : c1 = ']'
            · simp only [h2, if_true]
              refine ⟨by simp, fun v rest h => ?_⟩
              simp only [Read.done.injEq] at h
              rw [← h.2]
              omega
            · simp only [h2, if_false]
              obtain ⟨ha, hb⟩ := ihE (d + 1) [] (c1 :: rest1)
              refine ⟨fun hf => ha (by simp only [List.length_cons]; omega), fun v rest h => ?_⟩
              have := hb v rest h
              simp only [List.length_cons] at this
              omega
      · simp only [h3, if_false]
        by_cases h4 : c = '"'
        · simp only [h4, if_true]
          obtain ⟨ha, hb⟩ := readString_fuel (rest0.length + 1) [] rest0 (by omega)
          rcases hr : readString (rest0.length + 1) [] rest0 with _ | err | ⟨s, rest1⟩
          · exact absurd hr ha
          · simp
          · have := hb s rest1 hr
            refine ⟨by simp, fun v rest h => ?_⟩
            simp only [Read.done.injEq] at h
            rw [← h.2]
            omega
        · simp only [h4, if_false]
          by_cases h5 : c = '-' ∨ isDigit c = true
          · simp only [h5, if_true]
            rcases hr : readNumber (c :: rest0) with err | ⟨lit, rest1⟩
            · simp
            · have := readNumber_length _ _ _ hr
              simp only [List.length_cons] at this
              refine ⟨by simp, fun v rest h => ?_⟩
              simp only [Read.done.injEq] at h
              rw [← h.2]
              omega
          · simp only [h5, if_false]
            by_cases h6 : c = 't'
            · simp only [h6, if_true]
              rcases hr : readLiteral ['r', 'u', 'e'] rest0 with err | rest1
              · simp
              · have := readLiteral_length _ _ _ hr
                refine ⟨by simp, fun v rest h => ?_⟩
                simp only [Read.done.injEq] at h
                rw [← h.2]
                omega
            · simp only [h6, if_false]
              by_cases h7 : c = 'f'
              · simp only [h7, if_true]
                rcases hr : readLiteral ['a', 'l', 's', 'e'] rest0 with err | rest1
                · simp
                · have := readLiteral_length _ _ _ hr
                  refine ⟨by simp, fun v rest h => ?_⟩
                  simp only [Read.done.injEq] at h
                  rw [← h.2]
                  omega
              · simp only [h7, if_false]
                by_cases h8 : c = 'n'
                · simp only [h8, if_true]
                  rcases hr : readLiteral ['u', 'l', 'l'] rest0 with err | rest1
                  · simp
                  · have := readLiteral_length _ _ _ hr
                    refine ⟨by simp, fun v rest h => ?_⟩
                    simp only [Read.done.injEq] at h
                    rw [← h.2]
                    omega
                · simp [h8]

theorem parseElems_step (n : Nat) (ihV : ValueFuel n) (ihE : ElemsFuel n) :
    ElemsFuel (n + 1) := by
  intro d acc input
  simp only [parseElems]
  obtain ⟨ha, hb⟩ := ihV d input
  rcases hr : parseValue n d input with _ | err | ⟨v0, rest0⟩
  · refine ⟨fun hf => absurd hr (ha (by omega)), by simp⟩
  · simp
  · have hlen := hb v0 rest0 hr
    simp only
    rcases hs : skipSpace rest0 with _ | ⟨c, rest1⟩
    · simp
    · have hlen1 := skipSpace_cons_length hs
      simp only
      by_cases h1 : c = ','
      · simp only [h1, if_true]
        obtain ⟨hc, hd⟩ := ihE d (v0 :: acc) rest1
        refine ⟨fun hf => hc (by omega), fun v rest h => ?_⟩
        have := hd v rest h
        omega
      · simp only [h1, if_false]
        by_cases h2 : c = ']'
        · simp only [h2, if_true]
          refine ⟨by simp, fun v rest h => ?_⟩
          simp only [Read.done.injEq] at h
          rw [← h.2]
          omega
        · simp [h2]

theorem parseMembers_step (n : Nat) (ihV : ValueFuel n) (ihM : MembersFuel n) :
    MembersFuel (n + 1) := by
  intro d acc input
  simp only [parseMembers]
  rcases hs : skipSpace input with _ | ⟨q, rest0⟩
  · simp
  · have hlen := skipSpace_cons_length hs
    simp only
    by_cases h1 : q = '"'
    · simp only [h1, if_true]
      obtain ⟨ha, hb⟩ := readString_fuel (rest0.length + 1) [] rest0 (by omega)
      rcases hr : readString (rest0.length + 1) [] rest0 with _ | err | ⟨key, rest1⟩
      · exact absurd hr ha
      · simp
      · have hlen1 := hb key rest1 hr
        simp only
        rcases hs2 : skipSpace rest1 with _ | ⟨colon, rest2⟩
        · simp
        · have hlen2 := skipSpace_cons_length hs2
          simp only
          by_cases h2 : colon = ':'
          · simp only [h2, if_true]
            obtain ⟨hc, hd⟩ := ihV d rest2
            rcases hv : parseValue n d rest2 with _ | err | ⟨v0, rest3⟩
            · refine ⟨fun hf => absurd hv (hc (by omega)), by simp⟩
            · simp
            · have hlen3 := hd v0 rest3 hv
              simp only
              rcases hs4 : skipSpace rest3 with _ | ⟨c, rest4⟩
              · simp
              · have hlen4 := skipSpace_cons_length hs4
                simp only
                by_cases h3 : c = ','
                · simp only [h3, if_true]
                  obtain ⟨he, hg⟩ := ihM d ((key, v0) :: acc) rest4
                  refine ⟨fun hf => he (by omega), fun v rest h => ?_⟩
                  have := hg v rest h
                  omega
                · simp only [h3, if_false]
                  by_cases h4 : c = '\x7d'
                  · simp only [h4, if_true]
                    refine ⟨by simp, fun v rest h => ?_⟩
                    simp only [Read.done.injEq] at h
                    rw [← h.2]
                    omega
                  · simp [h4]
          · simp [h2]
    · simp [h1]

theorem parse_fuel (fuel : Nat) : ValueFuel fuel ∧ ElemsFuel fuel ∧ MembersFuel fuel := by
  induction fuel with
  | zero =>
    refine ⟨fun d input => ?_, fun d acc input => ?_, fun d acc input => ?_⟩
    · exact ⟨fun hf => by omega, fun v rest h => by simp [parseValue] at h⟩
    · exact ⟨fun hf => by omega, fun v rest h => by simp [parseElems] at h⟩
    · exact ⟨fun hf => by omega, fun v rest h => by simp [parseMembers] at h⟩
  | succ n ih =>
    obtain ⟨ihV, ihE, ihM⟩ := ih
    exact ⟨parseValue_step n ihE ihM, parseElems_step n ihV ihE, parseMembers_step n ihV ihM⟩

/-- The fuel `readValue` gives the reader is enough: reading never stops for
lack of fuel, so the errors of `readValue` are errors of the text. -/
theorem readValue_fuel (input : List Char) :
    parseValue (2 * input.length + 2) 0 input ≠ .outOfFuel :=
  ((parse_fuel (2 * input.length + 2)).1 0 input).1 (by omega)

/-! ## The reader reads back what the encoder writes -/

theorem hexVal_hexDigit (k : Nat) (hk : k < 16) : hexVal (hexDigit k) = some k := by
  interval_cases k <;> rfl

theorem readHex_escape (a b : Nat) (ha : a < 16) (hb : b < 16) (tail : List Char) :
    readHex 4 0 ('0' :: '0' :: hexDigit a :: hexDigit b :: tail) = .ok (a * 16 + b, tail) := by
  have h0 : hexVal '0' = some 0 := rfl
  simp [readHex, h0, hexVal_hexDigit a ha, hexVal_hexDigit b hb]

theorem readString_control (fuel : Nat) (acc tail : List Char) (c : Char) (hc : c.toNat < 128) :
    readString (fuel + 1) acc
        ('\\' :: 'u' :: '0' :: '0' :: hexDigit (c.toNat / 16) :: hexDigit (c.toNat % 16) :: tail) =
      readString fuel (c :: acc) tail := by
  have hhex := readHex_escape (c.toNat / 16) (c.toNat % 16) (by omega) (by omega) tail
  have hval : c.toNat / 16 * 16 + c.toNat % 16 = c.toNat := by omega
  rw [hval] at hhex
  have h1 : ¬ ('\\' = '"') := by decide
  have hsur : ¬ (0xD800 ≤ c.toNat ∧ c.toNat < 0xE000) := by omega
  simp only [readString, h1, if_false, if_true, hhex, hsur, Char.ofNat_toNat]

theorem readString_simpleEscape (fuel : Nat) (acc tail : List Char) (e ch : Char)
    (hes : simpleEscape e = some ch) (hne : ¬ e = 'u') :
    readString (fuel + 1) acc ('\\' :: e :: tail) = readString fuel (ch :: acc) tail := by
  have h1 : ¬ ('\\' = '"') := by decide
  simp only [readString, h1, if_false, if_true, hne, hes]

theorem readString_escapeChar (fuel : Nat) (acc tail : List Char) (c : Char) :
    readString (fuel + 1) acc (escapeChar c ++ tail) = readString fuel (c :: acc) tail := by
  unfold escapeChar
  by_cases h1 : c = '"'
  · subst h1
    exact readString_simpleEscape fuel acc tail '"' '"' rfl (by decide)
  rw [if_neg h1]
  by_cases h2 : c = '\\'
  · subst h2
    exact readString_simpleEscape fuel acc tail '\\' '\\' rfl (by decide)
  rw [if_neg h2]
  by_cases h3 : c = '\x08'
  · subst h3
    exact readString_simpleEscape fuel acc tail 'b' '\x08' rfl (by decide)
  rw [if_neg h3]
  by_cases h4 : c = '\x0c'
  · subst h4
    exact readString_simpleEscape fuel acc tail 'f' '\x0c' rfl (by decide)
  rw [if_neg h4]
  by_cases h5 : c = '\n'
  · subst h5
    exact readString_simpleEscape fuel acc tail 'n' '\n' rfl (by decide)
  rw [if_neg h5]
  by_cases h6 : c = '\r'
  · subst h6
    exact readString_simpleEscape fuel acc tail 'r' '\r' rfl (by decide)
  rw [if_neg h6]
  by_cases h7 : c = '\t'
  · subst h7
    exact readString_simpleEscape fuel acc tail 't' '\t' rfl (by decide)
  rw [if_neg h7]
  by_cases h8 : c.toNat < 32 ∨ c = '<' ∨ c = '>' ∨ c = '&'
  · rw [if_pos h8]
    have hc : c.toNat < 128 := by
      rcases h8 with h | h | h | h
      · omega
      · subst h; decide
      · subst h; decide
      · subst h; decide
    exact readString_control fuel acc tail c hc
  rw [if_neg h8]
  have hlt : ¬ c.toNat < 32 := fun h => h8 (Or.inl h)
  have hhex : readHex 4 0 ('2' :: '0' :: '2' :: '8' :: tail) = .ok (0x2028, tail) := rfl
  have hhex9 : readHex 4 0 ('2' :: '0' :: '2' :: '9' :: tail) = .ok (0x2029, tail) := rfl
  have hq : ¬ ('\\' = '"') := by decide
  by_cases h9 : c = '\u2028'
  · subst h9
    simp only [if_true, List.cons_append, List.nil_append, readString, hq, if_false, hhex]
    rfl
  rw [if_neg h9]
  by_cases h10 : c = '\u2029'
  · subst h10
    simp only [if_true, List.cons_append, List.nil_append, readString, hq, if_false, hhex9]
    rfl
  rw [if_neg h10]
  simp only [List.singleton_append, readString, h1, h2, hlt, if_false]
  rfl

theorem readString_escaped (s : List Char) (fuel : Nat) (acc tail : List Char)
    (hfuel : s.length < fuel) :
    readString fuel acc ((s.map escapeChar).flatten ++ '"' :: tail) =
      .done ⟨acc.reverse ++ s⟩ tail := by
  induction s generalizing fuel acc with
  | nil =>
    cases fuel with
    | zero => simp at hfuel
    | succ n => simp [readString]
  | cons c cs ih =>
    cases fuel with
    | zero => simp at hfuel
    | succ n =>
      simp only [List.length_cons, Nat.add_lt_add_iff_right] at hfuel
      simp only [List.map_cons, List.flatten_cons, List.append_assoc]
      rw [readString_escapeChar, ih n (c :: acc) hfuel]
      simp

theorem escapeChar_length (c : Char) : 1 ≤ (escapeChar c).length := by
  unfold escapeChar
  repeat' split
  all_goals simp only [List.length_cons, List.length_nil]; omega

theorem escaped_length (s : List Char) : s.length ≤ (s.map escapeChar).flatten.length := by
  induction s with
  | nil => simp
  | cons c cs ih =>
    have := escapeChar_length c
    simp only [List.map_cons, List.flatten_cons, List.length_append, List.length_cons]
    omega

/-- A string literal written by the encoder is read back as the string. -/
theorem readString_quoteString (s : String) (tail : List Char) :
    ∃ rest, quoteString s ++ tail = '"' :: rest ∧
      readString (rest.length + 1) [] rest = .done s tail := by
  refine ⟨(s.data.map escapeChar).flatten ++ '"' :: tail, by simp [quoteString], ?_⟩
  have := escaped_length s.data
  rw [readString_escaped s.data _ [] tail (by simp only [List.length_append]; omega)]
  simp

theorem skipSpace_cons (c : Char) (l : List Char) (hc : isSpace c = false) :
    skipSpace (c :: l) = c :: l := by
  simp [skipSpace, hc]

theorem readsBack_mono {j : Json} {n m : Nat} (h : ReadsBack j n) (hnm : n ≤ m) :
    ReadsBack j m :=
  fun fuel depth tail hf hd => h fuel depth tail hf (by omega)

theorem readsBack_null : ReadsBack .null 0 := by
  intro fuel depth tail hf _
  cases fuel with
  | zero => omega
  | succ n => rfl

theorem readsBack_str (s : String) : ReadsBack (.str s) 0 := by
  intro fuel depth tail hf _
  cases fuel with
  | zero => omega
  | succ n =>
    obtain ⟨rest, hq, hread⟩ := readString_quoteString s tail
    have h1 : ¬ ('"' = '\x7b') := by decide
    have h2 : ¬ ('"' = '[') := by decide
    simp only [Json.renderChars, hq, parseValue, skipSpace_cons '"' rest rfl, h1, h2, if_false,
      if_true, hread]

/-- One member written by the encoder, read by `parseMembers`. -/
theorem parseMembers_member (fuel depth : Nat) (acc : List (String × Json)) (k : String)
    (j : Json) (after : List Char)
    (hj : parseValue fuel depth (j.renderChars ++ after) = .done j after) :
    parseMembers (fuel + 1) depth acc (quoteString k ++ ':' :: (j.renderChars ++ after)) =
      match skipSpace after with
      | [] => .fail .unexpectedEOF
      | c :: rest =>
        if c = ',' then parseMembers fuel depth ((k, j) :: acc) rest
        else if c = '\x7d' then .done (.obj ((k, j) :: acc).reverse) rest
        else .fail .syntaxError := by
  obtain ⟨rest, hq, hread⟩ := readString_quoteString k (':' :: (j.renderChars ++ after))
  simp only [hq, parseMembers, skipSpace_cons '"' rest rfl, if_true, hread,
    skipSpace_cons ':' _ rfl, hj]

/-- The members written by the encoder, read by `parseMembers`. -/
theorem parseMembers_render (ms : List (String × Json)) (nesting : Nat)
    (hms : ∀ m ∈ ms, ReadsBack m.2 nesting) (hne : ms ≠ []) (fuel depth : Nat)
    (acc : List (String × Json)) (tail : List Char)
    (hf : 2 * (renderMembers ms ++ '\x7d' :: tail).length + 2 ≤ fuel)
    (hd : depth + nesting ≤ maxNestingDepth) :
    parseMembers fuel depth acc (renderMembers ms ++ '\x7d' :: tail) =
      .done (.obj (acc.reverse ++ ms)) tail := by
  induction ms generalizing fuel acc with
  | nil => exact absurd rfl hne
  | cons m rest ih =>
    obtain ⟨k, j⟩ := m
    have hj := hms (k, j) (List.mem_cons_self _ _)
    cases fuel with
    | zero => omega
    | succ n =>
      cases rest with
      | nil =>
        simp only [renderMembers, List.append_assoc, List.cons_append, List.length_append,
          List.length_cons] at hf ⊢
        have hv := hj n depth ('\x7d' :: tail)
          (by simp only [List.length_append, List.length_cons]; omega) hd
        rw [parseMembers_member n depth acc k j _ hv, skipSpace_cons '\x7d' tail rfl]
        have h1 : ¬ ('\x7d' = ',') := by decide
        simp only [h1, if_false, if_true, List.reverse_cons]
      | cons m2 rest2 =>
        simp only [renderMembers, List.append_assoc, List.cons_append, List.length_append,
          List.length_cons] at hf ⊢
        have hv := hj n depth (',' :: (renderMembers (m2 :: rest2) ++ '\x7d' :: tail))
          (by simp only [List.length_append, List.length_cons]; omega) hd
        rw [parseMembers_member n depth acc k j _ hv, skipSpace_cons ',' _ rfl]
        simp only [if_true]
        rw [ih (fun m hm => hms m (List.mem_cons_of_mem _ hm)) (List.cons_ne_nil _ _) n
          ((k, j) :: acc)
          (by simp only [List.length_append, List.length_cons] at hf ⊢; omega)]
        simp

/-- The first character of the text of a member list that is not empty. -/
theorem renderMembers_head (ms : List (String × Json)) (hne : ms ≠ []) (tail : List Char) :
    ∃ rest, renderMembers ms ++ tail = '"' :: rest := by
  cases ms with
  | nil => exact absurd rfl hne
  | cons m rest =>
    obtain ⟨k, j⟩ := m
    cases rest with
    | nil => exact ⟨_, by simp only [renderMembers, quoteString, List.cons_append]; rfl⟩
    | cons m2 rest2 =>
      exact ⟨_, by simp only [renderMembers, quoteString, List.cons_append]; rfl⟩

/-- An object written by the encoder is read back when its members' values are. -/
theorem readsBack_obj (ms : List (String × Json)) (nesting : Nat)
    (hms : ∀ m ∈ ms, ReadsBack m.2 nesting) : ReadsBack (.obj ms) (nesting + 1) := by
  intro fuel depth tail hf hd
  cases fuel with
  | zero => omega
  | succ n =>
    have hdepth : ¬ depth ≥ maxNestingDepth := by omega
    have htext : (Json.obj ms).renderChars ++ tail =
        '\x7b' :: (renderMembers ms ++ '\x7d' :: tail) := by
      simp [Json.renderChars]
    rw [htext] at hf ⊢
    simp only [parseValue, skipSpace_cons '\x7b' _ rfl, if_true, hdepth, if_false]
    by_cases hne : ms = []
    · subst hne
      simp only [renderMembers, List.nil_append, skipSpace_cons '\x7d' tail rfl, if_true]
    · obtain ⟨rest, hrest⟩ := renderMembers_head ms hne ('\x7d' :: tail)
      have h1 : ¬ ('"' = '\x7d') := by decide
      have hp := parseMembers_render ms nesting hms hne n (depth + 1) [] tail
        (by simp only [List.length_cons] at hf; omega) (by omega)
      rw [hrest] at hp ⊢
      simp only [skipSpace_cons '"' rest rfl, h1, if_false, hp, List.reverse_nil,
        List.nil_append]

/-- The elements written by the encoder, read by `parseElems`. -/
theorem parseElems_render (js : List Json) (nesting : Nat)
    (hjs : ∀ j ∈ js, ReadsBack j nesting) (hne : js ≠ []) (fuel depth : Nat)
    (acc : List Json) (tail : List Char)
    (hf : 2 * (renderElems js ++ ']' :: tail).length + 2 ≤ fuel)
    (hd : depth + nesting ≤ maxNestingDepth) :
    parseElems fuel depth acc (renderElems js ++ ']' :: tail) =
      .done (.arr (acc.reverse ++ js)) tail := by
  induction js generalizing fuel acc with
  | nil => exact absurd rfl hne
  | cons j rest ih =>
    have hj := hjs j (List.mem_cons_self _ _)
    cases fuel with
    | zero => omega
    | succ n =>
      cases rest with
      | nil =>
        simp only [renderElems] at hf ⊢
        have hv := hj n depth (']' :: tail) (by omega) hd
        have h1 : ¬ (']' = ',') := by decide
        simp only [parseElems, hv, skipSpace_cons ']' tail rfl, h1, if_false, if_true,
          List.reverse_cons]
      | cons j2 rest2 =>
        simp only [renderElems, List.append_assoc, List.cons_append, List.length_append,
          List.length_cons] at hf ⊢
        have hv := hj n depth (',' :: (renderElems (j2 :: rest2) ++ ']' :: tail))
          (by simp only [List.length_append, List.length_cons]; omega) hd
        simp only [parseElems, hv, skipSpace_cons ',' _ rfl, if_true]
        rw [ih (fun x hx => hjs x (List.mem_cons_of_mem _ hx)) (List.cons_ne_nil _ _) n
          (j :: acc)
          (by simp only [List.length_append, List.length_cons] at hf ⊢; omega)]
        simp

/-- The first character of the text of a list of objects that is not empty. -/
theorem renderElems_head (js : List Json) (hne : js ≠ [])
    (hobj : ∀ j ∈ js, ∃ ms, j = .obj ms) (tail : List Char) :
    ∃ rest, renderElems js ++ tail = '\x7b' :: rest := by
  cases js with
  | nil => exact absurd rfl hne
  | cons j rest =>
    obtain ⟨ms, hms⟩ := hobj j (List.mem_cons_self _ _)
    subst hms
    cases rest with
    | nil => exact ⟨_, by simp only [renderElems, Json.renderChars, List.cons_append]; rfl⟩
    | cons j2 rest2 =>
      exact ⟨_, by simp only [renderElems, Json.renderChars, List.cons_append]; rfl⟩

/-- An array of objects written by the encoder is read back when the objects are. -/
theorem readsBack_arr (js : List Json) (nesting : Nat)
    (hjs : ∀ j ∈ js, ReadsBack j nesting) (hobj : ∀ j ∈ js, ∃ ms, j = .obj ms) :
    ReadsBack (.arr js) (nesting + 1) := by
  intro fuel depth tail hf hd
  cases fuel with
  | zero => omega
  | succ n =>
    have hdepth : ¬ depth ≥ maxNestingDepth := by omega
    have htext : (Json.arr js).renderChars ++ tail = '[' :: (renderElems js ++ ']' :: tail) := by
      simp [Json.renderChars]
    rw [htext] at hf ⊢
    have h0 : ¬ ('[' = '\x7b') := by decide
    simp only [parseValue, skipSpace_cons '[' _ rfl, h0, if_true, hdepth, if_false]
    by_cases hne : js = []
    · subst hne
      simp only [renderElems, List.nil_append, skipSpace_cons ']' tail rfl, if_true]
    · obtain ⟨rest, hrest⟩ := renderElems_head js hne hobj (']' :: tail)
      have h1 : ¬ ('\x7b' = ']') := by decide
      have hp := parseElems_render js nesting hjs hne n (depth + 1) [] tail
        (by simp only [List.length_cons] at hf; omega) (by omega)
      rw [hrest] at hp ⊢
      simp only [skipSpace_cons '\x7b' rest rfl, h1, if_false, hp, List.reverse_nil,
        List.nil_append]

/-- The JSON value of an event is read back from its text. -/
theorem readsBack_event (e : ChangeEvent) : ReadsBack (eventJson e) 3 := by
  unfold eventJson
  apply readsBack_obj _ 2
  intro m hm
  simp only [List.mem_cons, List.mem_singleton, List.not_mem_nil, or_false] at hm
  rcases hm with rfl | rfl | rfl
  · exact readsBack_mono (readsBack_str _) (by omega)
  · apply readsBack_obj _ 1
    intro m hm
    simp only [List.mem_cons, List.mem_singleton, List.not_mem_nil, or_false] at hm
    rcases hm with rfl | rfl | rfl | rfl
    · exact readsBack_mono (readsBack_str _) (by omega)
    · exact readsBack_mono (readsBack_str _) (by omega)
    · exact readsBack_mono (readsBack_str _) (by omega)
    · cases e.Payload.CustomDetails with
      | none => exact readsBack_mono readsBack_null (by omega)
      | some es =>
        apply readsBack_obj _ 0
        intro m hm
        simp only [List.mem_map] at hm
        obtain ⟨kv, _, rfl⟩ := hm
        exact readsBack_str _
  · cases e.Links with
    | none => exact readsBack_mono readsBack_null (by omega)
    | some ls =>
      apply readsBack_arr _ 1
      · intro j hj
        simp only [List.mem_map] at hj
        obtain ⟨l, _, rfl⟩ := hj
        apply readsBack_obj _ 0
        intro m hm
        simp only [List.mem_cons, List.mem_singleton, List.not_mem_nil, or_false] at hm
        rcases hm with rfl | rfl
        · exact readsBack_str _
        · exact readsBack_str _
      · intro j hj
        simp only [List.mem_map] at hj
        obtain ⟨l, _, rfl⟩ := hj
        exact ⟨_, rfl⟩

/-- The body marshalled for an event is read back as the JSON value of the event. -/
theorem readValue_event (e : ChangeEvent) :
    readValue (eventJson e).render = .ok (eventJson e) := by
  have hrb := readsBack_event e
  have htext : (eventJson e).render.data = '\x7b' :: (renderMembers
      (match eventJson e with | .obj ms => ms | _ => []) ++ ['\x7d']) := by
    simp [Json.render, eventJson, Json.renderChars]
  unfold readValue
  rw [htext, skipSpace_cons '\x7b' _ rfl]
  simp only
  have h := hrb (2 * ('\x7b' :: (renderMembers
      (match eventJson e with | .obj ms => ms | _ => []) ++ ['\x7d'])).length + 2) 0 []
  rw [List.append_nil] at h
  have htext2 : (eventJson e).renderChars = '\x7b' :: (renderMembers
      (match eventJson e with | .obj ms => ms | _ => []) ++ ['\x7d']) := htext
  rw [htext2] at h
  rw [h (by omega) (by simp [maxNestingDepth])]

/-! ## The claims -/

/-- C1. With an empty `v2EventsAPIEndpoint`, `CreateChangeEvent` returns a nil
response and the error `errors.New("v2EventsAPIEndpoint field must be set on
Client")`, and the helper is not called: the client, and with it the log of
calls a recording helper keeps, is as it was. -/
theorem CreateChangeEvent_endpoint_unset {κ : Type} (h : Dispatch κ) (e : ChangeEvent)
    (c : Client (κ × List DispatchCall)) (hempty : c.v2EventsAPIEndpoint = "") :
    (CreateChangeEvent (recording h) e c).1 =
        .returned (none, some (.errorsNew "v2EventsAPIEndpoint field must be set on Client")) ∧
      (CreateChangeEvent (recording h) e c).2 = c ∧
      (CreateChangeEvent (recording h) e c).2.rest.2 = c.rest.2 := by
  simp [CreateChangeEvent, hempty]

theorem CreateChangeEvent_endpoint_unset_witness :
    unsetClient.v2EventsAPIEndpoint = "" ∧
      ((CreateChangeEvent (recording (answering "\x7b\"status\":\"success\"\x7d")) sampleEvent
          unsetClient).1 =
        .returned (none, some (.errorsNew "v2EventsAPIEndpoint field must be set on Client")) ∧
      (CreateChangeEvent (recording (answering "\x7b\"status\":\"success\"\x7d")) sampleEvent
          unsetClient).2 = unsetClient ∧
      (CreateChangeEvent (recording (answering "\x7b\"status\":\"success\"\x7d")) sampleEvent
          unsetClient).2.rest.2 = unsetClient.rest.2) :=
  ⟨rfl, CreateChangeEvent_endpoint_unset (answering "\x7b\"status\":\"success\"\x7d") sampleEvent
    unsetClient rfl⟩

/-- C2. With a non-empty `v2EventsAPIEndpoint` and any event, the helper is called
with the client's endpoint, method `POST`, path `/v2/change/enqueue`, no
authentication, an empty header map and the JSON text of the event as body. -/
theorem CreateChangeEvent_dispatch_call {κ : Type} (h : Dispatch κ) (e : ChangeEvent)
    (c : Client (κ × List DispatchCall)) (hne : c.v2EventsAPIEndpoint ≠ "") :
    ∃ data, jsonMarshal e = .ok data ∧
      (CreateChangeEvent (recording h) e c).2.rest.2 =
        c.rest.2 ++ [⟨c.v2EventsAPIEndpoint, "POST", "/v2/change/enqueue", false, data, []⟩] := by
  refine ⟨(eventJson e).render, jsonMarshal_event e, ?_⟩
  rw [CreateChangeEvent_client (recording h) e c hne, recording_log]
  rfl

theorem CreateChangeEvent_dispatch_call_witness :
    sampleClient.v2EventsAPIEndpoint ≠ "" ∧
      ∃ data, jsonMarshal zeroEvent = .ok data ∧
        (CreateChangeEvent (recording (answering "\x7b\"status\":\"success\"\x7d")) zeroEvent
            sampleClient).2.rest.2 =
          sampleClient.rest.2 ++
            [⟨sampleClient.v2EventsAPIEndpoint, "POST", "/v2/change/enqueue", false, data, []⟩] :=
  ⟨by decide, CreateChangeEvent_dispatch_call (answering "\x7b\"status\":\"success\"\x7d")
    zeroEvent sampleClient (by decide)⟩

/-- C3, as amended. When the helper succeeds and the body begins with a JSON
object whose members are typed (a member whose key is `status` or `message`
up to letter case holds a string or `null`, one whose key is `errors` up to
letter case holds an array of strings or `null`), the method returns a
non-nil response and a nil error: `Status` and `Message` are the strings of
the last such members that hold a string, `Errors` the strings of the last
member for `errors`, a field that no member gives is left at its zero value,
members with other keys are ignored, and a non-empty `Errors` is no error. -/
theorem CreateChangeEvent_response {κ : Type} (h : Dispatch κ) (e : ChangeEvent)
    (c c1 : Client κ) (resp : HttpResponse) (ms : List (String × Json))
    (hne : c.v2EventsAPIEndpoint ≠ "")
    (hcall : ∀ data, jsonMarshal e = .ok data →
      h ⟨c.v2EventsAPIEndpoint, "POST", ChangeEventPath, false, data, []⟩ c =
        ((some resp, none), c1))
    (hbody : readValue resp.Body = .ok (.obj ms))
    (htyped : ms.all typedMember = true) :
    CreateChangeEvent h e c =
      (.returned (some ⟨lastString .Status ms, lastString .Message ms, lastErrors ms⟩, none),
        c1) := by
  have hres := hcall _ (jsonMarshal_event e)
  simp only [CreateChangeEvent, hne, if_false, jsonMarshal_event, hres, jsonDecode, hbody,
    decodeValue_typed ms htyped]

theorem CreateChangeEvent_response_witness :
    sampleClient.v2EventsAPIEndpoint ≠ "" ∧
      readValue "\x7b\"status\":\"success\",\"Message\":\"Change event processed\",\"id\":7,\"errors\":[\"late\"]\x7d" =
        .ok (.obj [("status", .str "success"), ("Message", .str "Change event processed"),
          ("id", .num "7"), ("errors", .arr [.str "late"])]) ∧
      CreateChangeEvent
          (answering "\x7b\"status\":\"success\",\"Message\":\"Change event processed\",\"id\":7,\"errors\":[\"late\"]\x7d")
          sampleEvent sampleClient =
        (.returned (some ⟨"success", "Change event processed", some ["late"]⟩, none),
          sampleClient) :=
  ⟨by decide, rfl,
    CreateChangeEvent_response
      (answering "\x7b\"status\":\"success\",\"Message\":\"Change event processed\",\"id\":7,\"errors\":[\"late\"]\x7d")
      sampleEvent sampleClient sampleClient
      ⟨"\x7b\"status\":\"success\",\"Message\":\"Change event processed\",\"id\":7,\"errors\":[\"late\"]\x7d"⟩
      [("status", .str "success"), ("Message", .str "Change event processed"),
        ("id", .num "7"), ("errors", .arr [.str "late"])]
      (by decide) (fun _ _ => rfl) rfl (by decide)⟩

/-- C3 fails as stated. A body that is a JSON object whose `status` holds a
number makes the method return a nil response and an error; and in a body
without the key `status` the key `Status` is not ignored: its string is
stored in the field `Status`, which is then not at its zero value. -/
theorem CreateChangeEvent_object_body_counterexample :
    (readValue "\x7b\"status\":1\x7d" = .ok (.obj [("status", .num "1")]) ∧
      (CreateChangeEvent (answering "\x7b\"status\":1\x7d") sampleEvent sampleClient).1 =
        .returned (none, some (.unmarshalType "number" "string"))) ∧
    (readValue "\x7b\"Status\":\"ok\"\x7d" = .ok (.obj [("Status", .str "ok")]) ∧
      [("Status", Json.str "ok")].lookup "status" = none ∧
      (CreateChangeEvent (answering "\x7b\"Status\":\"ok\"\x7d") sampleEvent sampleClient).1 =
        .returned (some ⟨"ok", "", none⟩, none)) :=
  ⟨⟨rfl, by decide⟩, ⟨rfl, rfl, by decide⟩⟩

/-- C4. The body marshalled for an event is the text of a JSON object with the
members `routing_key`, `payload`, `links` in that order, `payload` an object
with the members `source`, `summary`, `timestamp`, `custom_details` in that
order, each link an object with the members `href`, `text`; no member is left
out, an empty string is written as a string, a nil `Links` and a nil
`CustomDetails` as `null`.  The body is the text the encoder writes for that
object, and the reader reads that object back from it. -/
theorem jsonMarshal_shape (e : ChangeEvent) :
    ∃ (data : String) (details links : Json),
      jsonMarshal e = .ok data ∧
      details = (match e.Payload.CustomDetails with
        | none => Json.null
        | some es => Json.obj ((sortByKey es).map fun kv => (kv.1, Json.str kv.2))) ∧
      links = (match e.Links with
        | none => Json.null
        | some ls => Json.arr (ls.map fun l =>
            Json.obj [("href", .str l.Href), ("text", .str l.Text)])) ∧
      readValue data = .ok (.obj [
        ("routing_key", .str e.RoutingKey),
        ("payload", .obj [
          ("source", .str e.Payload.Source),
          ("summary", .str e.Payload.Summary),
          ("timestamp", .str e.Payload.Timestamp),
          ("custom_details", details)]),
        ("links", links)]) ∧
      data = Json.render (.obj [
        ("routing_key", .str e.RoutingKey),
        ("payload", .obj [
          ("source", .str e.Payload.Source),
          ("summary", .str e.Payload.Summary),
          ("timestamp", .str e.Payload.Timestamp),
          ("custom_details", details)]),
        ("links", links)]) :=
  ⟨(eventJson e).render, _, _, jsonMarshal_event e, rfl, rfl, readValue_event e, rfl⟩

/-- C5. One call of `CreateChangeEvent` calls the helper at most once, whatever
the helper does: the log of a recording helper grows by no call when the
endpoint is empty and by exactly one call when it is not. -/
theorem CreateChangeEvent_dispatch_once {κ : Type} (h : Dispatch κ) (e : ChangeEvent)
    (c : Client (κ × List DispatchCall)) :
    (CreateChangeEvent (recording h) e c).2.rest.2 =
        c.rest.2 ++ (if c.v2EventsAPIEndpoint = "" then []
          else [changeEventCall c (eventJson e).render]) ∧
      (CreateChangeEvent (recording h) e c).2.rest.2.length =
        c.rest.2.length + (if c.v2EventsAPIEndpoint = "" then 0 else 1) ∧
      (CreateChangeEvent (recording h) e c).2.rest.2.length ≤ c.rest.2.length + 1 := by
  have hlog := CreateChangeEvent_log h e c
  refine ⟨hlog, ?_, ?_⟩ <;> rw [hlog] <;> split <;> simp

/-- C6. The method keeps no state of its own: with the endpoint empty the client
is left as it was, with the endpoint set it is left as the one call of the
helper left it; and two calls on clients with the same endpoint, with the
same event and with helpers that answer alike send the same call and end
alike. -/
theorem CreateChangeEvent_stateless {κ : Type} (h1 h2 : Dispatch κ) (e : ChangeEvent)
    (c1 c2 : Client (κ × List DispatchCall))
    (hep : c1.v2EventsAPIEndpoint = c2.v2EventsAPIEndpoint)
    (hsame : ∀ call, (h1 call ⟨c1.v2EventsAPIEndpoint, c1.rest.1⟩).1 =
      (h2 call ⟨c2.v2EventsAPIEndpoint, c2.rest.1⟩).1) :
    (c1.v2EventsAPIEndpoint = "" → (CreateChangeEvent (recording h1) e c1).2 = c1) ∧
      (c1.v2EventsAPIEndpoint ≠ "" → (CreateChangeEvent (recording h1) e c1).2 =
        (recording h1 (changeEventCall c1 (eventJson e).render) c1).2) ∧
      ((∀ call c, (h1 call c).2.v2EventsAPIEndpoint = c.v2EventsAPIEndpoint) →
        (CreateChangeEvent (recording h1) e c1).2.v2EventsAPIEndpoint =
          c1.v2EventsAPIEndpoint) ∧
      (CreateChangeEvent (recording h1) e c1).1 = (CreateChangeEvent (recording h2) e c2).1 ∧
      ∃ calls, (CreateChangeEvent (recording h1) e c1).2.rest.2 = c1.rest.2 ++ calls ∧
        (CreateChangeEvent (recording h2) e c2).2.rest.2 = c2.rest.2 ++ calls := by
  refine ⟨?_, ?_, ?_, ?_, ?_⟩
  · intro hempty
    simp [CreateChangeEvent, hempty]
  · intro hne
    exact CreateChangeEvent_client (recording h1) e c1 hne
  · intro hkeep
    by_cases hempty : c1.v2EventsAPIEndpoint = ""
    · simp [CreateChangeEvent, hempty]
    · rw [CreateChangeEvent_client (recording h1) e c1 hempty]
      simp only [recording]
      exact hkeep _ _
  · by_cases hempty : c1.v2EventsAPIEndpoint = ""
    · have hempty2 : c2.v2EventsAPIEndpoint = "" := hep ▸ hempty
      simp [CreateChangeEvent, hempty, hempty2]
    · have hne2 : c2.v2EventsAPIEndpoint ≠ "" := hep ▸ hempty
      rw [CreateChangeEvent_outcome (recording h1) e c1 hempty,
        CreateChangeEvent_outcome (recording h2) e c2 hne2, recording_result, recording_result,
        hsame]
      simp only [changeEventCall, hep]
  · refine ⟨if c1.v2EventsAPIEndpoint = "" then []
      else [changeEventCall c1 (eventJson e).render], ?_, ?_⟩
    · exact CreateChangeEvent_log h1 e c1
    · rw [CreateChangeEvent_log h2 e c2]
      simp only [changeEventCall, hep]

theorem CreateChangeEvent_stateless_witness :
    sampleClient.v2EventsAPIEndpoint =
        (CreateChangeEvent (recording (answering "\x7b\"status\":\"success\"\x7d")) sampleEvent
          sampleClient).2.v2EventsAPIEndpoint ∧
      (CreateChangeEvent (recording (answering "\x7b\"status\":\"success\"\x7d")) sampleEvent
          sampleClient).1 =
        (CreateChangeEvent (recording (answering "\x7b\"status\":\"success\"\x7d")) sampleEvent
          (CreateChangeEvent (recording (answering "\x7b\"status\":\"success\"\x7d")) sampleEvent
            sampleClient).2).1 :=
  ⟨rfl, (CreateChangeEvent_stateless (answering "\x7b\"status\":\"success\"\x7d")
    (answering "\x7b\"status\":\"success\"\x7d") sampleEvent sampleClient
    (CreateChangeEvent (recording (answering "\x7b\"status\":\"success\"\x7d")) sampleEvent
      sampleClient).2 rfl (fun _ => rfl)).2.2.2.1⟩

/-- C7. With an endpoint set, when the helper returns a non-nil error the method
returns a nil response and that very error, whatever response came with it:
no body is decoded. -/
theorem CreateChangeEvent_dispatch_error {κ : Type} (h : Dispatch κ) (e : ChangeEvent)
    (c c1 : Client κ) (resp : Option HttpResponse) (err : GoError)
    (hne : c.v2EventsAPIEndpoint ≠ "")
    (hcall : ∀ data, jsonMarshal e = .ok data →
      h ⟨c.v2EventsAPIEndpoint, "POST", ChangeEventPath, false, data, []⟩ c =
        ((resp, some err), c1)) :
    CreateChangeEvent h e c = (.returned (none, some err), c1) := by
  have hres := hcall _ (jsonMarshal_event e)
  simp only [CreateChangeEvent, hne, if_false, jsonMarshal_event, hres]

theorem CreateChangeEvent_dispatch_error_witness :
    sampleClient.v2EventsAPIEndpoint ≠ "" ∧
      CreateChangeEvent (failing (.other "connection refused")) sampleEvent sampleClient =
        (.returned (none, some (.other "connection refused")), sampleClient) :=
  ⟨by decide, CreateChangeEvent_dispatch_error (failing (.other "connection refused"))
    sampleEvent sampleClient sampleClient (some ⟨"\x7b\"status\":\"success\"\x7d"⟩)
    (.other "connection refused") (by decide) (fun _ _ => rfl)⟩

/-- C8. When the helper succeeds but the body does not begin with a JSON value
that fits `ChangeEventResponse`, the method returns a nil response and the
error of `Decode`, nothing of what was decoded, although the call was made. -/
theorem CreateChangeEvent_decode_error {κ : Type} (h : Dispatch κ) (e : ChangeEvent)
    (c : Client (κ × List DispatchCall)) (c1 : Client κ) (resp : HttpResponse)
    (hne : c.v2EventsAPIEndpoint ≠ "")
    (hcall : ∀ data, jsonMarshal e = .ok data →
      h ⟨c.v2EventsAPIEndpoint, "POST", ChangeEventPath, false, data, []⟩
          ⟨c.v2EventsAPIEndpoint, c.rest.1⟩ =
        ((some resp, none), c1))
    (hbody : ¬ ∃ v, readValue resp.Body = .ok v ∧ fitsResponse v = true) :
    ∃ err, (jsonDecode resp.Body ChangeEventResponse.zero).2 = some err ∧
      (CreateChangeEvent (recording h) e c).1 = .returned (none, some err) ∧
      ∃ data, jsonMarshal e = .ok data ∧
        (CreateChangeEvent (recording h) e c).2.rest.2 =
          c.rest.2 ++ [⟨c.v2EventsAPIEndpoint, "POST", ChangeEventPath, false, data, []⟩] := by
  have hres := hcall _ (jsonMarshal_event e)
  have hdec : (jsonDecode resp.Body ChangeEventResponse.zero).2 ≠ none :=
    fun hnone => hbody ((jsonDecode_error _ _).mp hnone)
  obtain ⟨err, herr⟩ := Option.ne_none_iff_exists'.mp hdec
  refine ⟨err, herr, ?_, (eventJson e).render, jsonMarshal_event e, ?_⟩
  · rw [CreateChangeEvent_outcome (recording h) e c hne, recording_result]
    simp only [changeEventCall, hres]
    rcases hd : jsonDecode resp.Body ChangeEventResponse.zero with ⟨r, err1⟩
    rw [hd] at herr
    simp only at herr
    subst herr
    rfl
  · rw [CreateChangeEvent_log h e c]
    simp [hne, changeEventCall]

theorem CreateChangeEvent_decode_error_witness :
    (∃ err, (jsonDecode "" ChangeEventResponse.zero).2 = some err ∧
      (CreateChangeEvent (recording (answering "")) sampleEvent sampleClient).1 =
        .returned (none, some err) ∧
      ∃ data, jsonMarshal sampleEvent = .ok data ∧
        (CreateChangeEvent (recording (answering "")) sampleEvent sampleClient).2.rest.2 =
          sampleClient.rest.2 ++
            [⟨sampleClient.v2EventsAPIEndpoint, "POST", ChangeEventPath, false, data, []⟩]) ∧
    (∃ err, (jsonDecode "<html>Bad Gateway</html>" ChangeEventResponse.zero).2 = some err ∧
      (CreateChangeEvent (recording (answering "<html>Bad Gateway</html>")) sampleEvent
          sampleClient).1 = .returned (none, some err) ∧
      ∃ data, jsonMarshal sampleEvent = .ok data ∧
        (CreateChangeEvent (recording (answering "<html>Bad Gateway</html>")) sampleEvent
            sampleClient).2.rest.2 =
          sampleClient.rest.2 ++
            [⟨sampleClient.v2EventsAPIEndpoint, "POST", ChangeEventPath, false, data, []⟩]) ∧
    (∃ err, (jsonDecode "\x7b\"message\":\"queued\",\"status\":202\x7d"
        ChangeEventResponse.zero).2 = some err ∧
      (CreateChangeEvent (recording (answering "\x7b\"message\":\"queued\",\"status\":202\x7d"))
          sampleEvent sampleClient).1 = .returned (none, some err) ∧
      ∃ data, jsonMarshal sampleEvent = .ok data ∧
        (CreateChangeEvent (recording (answering "\x7b\"message\":\"queued\",\"status\":202\x7d"))
            sampleEvent sampleClient).2.rest.2 =
          sampleClient.rest.2 ++
            [⟨sampleClient.v2EventsAPIEndpoint, "POST", ChangeEventPath, false, data, []⟩]) :=
  ⟨CreateChangeEvent_decode_error (answering "") sampleEvent sampleClient
      ⟨sampleClient.v2EventsAPIEndpoint, sampleClient.rest.1⟩ ⟨""⟩ (by decide)
      (fun _ _ => rfl)
      (fun hfit => absurd ((jsonDecode_error "" ChangeEventResponse.zero).mpr hfit) (by decide)),
    CreateChangeEvent_decode_error (answering "<html>Bad Gateway</html>") sampleEvent sampleClient
      ⟨sampleClient.v2EventsAPIEndpoint, sampleClient.rest.1⟩ ⟨"<html>Bad Gateway</html>"⟩
      (by decide) (fun _ _ => rfl)
      (fun hfit => absurd
        ((jsonDecode_error "<html>Bad Gateway</html>" ChangeEventResponse.zero).mpr hfit)
        (by decide)),
    CreateChangeEvent_decode_error (answering "\x7b\"message\":\"queued\",\"status\":202\x7d")
      sampleEvent sampleClient
      ⟨sampleClient.v2EventsAPIEndpoint, sampleClient.rest.1⟩
      ⟨"\x7b\"message\":\"queued\",\"status\":202\x7d"⟩
      (by decide) (fun _ _ => rfl)
      (fun hfit => absurd
        ((jsonDecode_error "\x7b\"message\":\"queued\",\"status\":202\x7d"
          ChangeEventResponse.zero).mpr hfit)
        (by decide))⟩

/-- C9. `json.Marshal` succeeds on every `ChangeEvent`, so the return on a marshal
error is never taken and, with an endpoint set, the helper is reached. -/
theorem jsonMarshal_total {κ : Type} (h : Dispatch κ) (e : ChangeEvent)
    (c : Client (κ × List DispatchCall)) (hne : c.v2EventsAPIEndpoint ≠ "") :
    (∃ data, jsonMarshal e = .ok data) ∧ (∀ err, jsonMarshal e ≠ .error err) ∧
      ∃ call, (CreateChangeEvent (recording h) e c).2.rest.2 = c.rest.2 ++ [call] := by
  refine ⟨⟨_, jsonMarshal_event e⟩, ?_, ?_⟩
  · intro err herr
    rw [jsonMarshal_event] at herr
    cases herr
  · exact ⟨_, by rw [CreateChangeEvent_client (recording h) e c hne, recording_log]⟩

theorem jsonMarshal_total_witness :
    sampleClient.v2EventsAPIEndpoint ≠ "" ∧
      ((∃ data, jsonMarshal sampleEvent = .ok data) ∧
        (∀ err, jsonMarshal sampleEvent ≠ .error err) ∧
        ∃ call, (CreateChangeEvent (recording (failing .unexpectedEOF)) sampleEvent
          sampleClient).2.rest.2 = sampleClient.rest.2 ++ [call]) :=
  ⟨by decide, jsonMarshal_total (failing .unexpectedEOF) sampleEvent sampleClient (by decide)⟩


end Pagerduty
